import Mathlib

/-!
# A shallow embedding of `pipeline.py` (AGEL diabetes pipeline)

This file embeds the data model and the operations of `src/pipeline.py` in
Lean 4 and proves properties of the embedding.

Conventions of the embedding:
* a pandas cell is `Cell`: missing (`NaN` / `pd.NA`), a string, or an
  integer (the `Int64` nullable dtype);
* a `DataFrame` is `DF`: an ordered list of column names together with the
  rows, each row a list of cells aligned positionally with the columns;
* Python string operations (`strip`, `split`, `upper`, `int(...)`,
  `float(...)`) are modelled charwise over `String.data` so that proofs can
  proceed structurally;
* code that can raise returns `Except String`; the message names the Python
  exception it stands for.
-/

namespace Pipeline

/-- A pandas cell: missing (`NaN`/`pd.NA`), a string, or a nullable integer. -/
inductive Cell where
  | na : Cell
  | str : String → Cell
  | int : Int → Cell
deriving DecidableEq, Repr

/-! ## Python-style string primitives, charwise over `String.data` -/

/-- `str.strip()` on a character list: drop whitespace at both ends. -/
def stripChars (l : List Char) : List Char :=
  ((l.dropWhile Char.isWhitespace).reverse.dropWhile Char.isWhitespace).reverse

/-- `str.strip()`. -/
def pyStrip (s : String) : String := String.mk (stripChars s.data)

/-- `str.upper()` (ASCII, as the pipeline's data is ASCII). -/
def pyUpper (s : String) : String := String.mk (s.data.map Char.toUpper)

/-- `str.lower()` of a single character, with the separators `' '`, `'-'`,
`'/'` sent to `'_'` first: the charwise body of the pipeline's `to_snake`. -/
def snakeChar (c : Char) : Char :=
  if c = ' ' ∨ c = '-' ∨ c = '/' then '_' else c.toLower

/-- `to_snake` of `transform_encounters`: replace `' '`, `'-'`, `'/'` by
`'_'` and lowercase. -/
def to_snake (s : String) : String := String.mk (s.data.map snakeChar)

/-- `str.split(sep)` on a character list: split on every occurrence of the
separator, keeping empty pieces, as Python's `split` with an argument does. -/
def splitOnChar (sep : Char) : List Char → List (List Char)
  | [] => [[]]
  | c :: rest =>
    if c = sep then [] :: splitOnChar sep rest
    else
      match splitOnChar sep rest with
      | [] => [[c]]
      | t :: ts => (c :: t) :: ts

/-- `sep in s` for a one-character separator. -/
def pyContains (s : String) (c : Char) : Bool := s.data.contains c

/-- The digits of a non-negative decimal numeral, or `none` when the
character list is empty or holds a non-digit. -/
def natDigits (l : List Char) : Option Nat :=
  if l ≠ [] ∧ l.all Char.isDigit then
    some (l.foldl (fun a c => a * 10 + (c.toNat - 48)) 0)
  else none

/-- Python `int(s)`: strip, an optional sign, then decimal digits;
`none` models the `ValueError`. -/
def pyInt (l : List Char) : Option Int :=
  let t := stripChars l
  if t.head? = some '-' then (natDigits t.tail).map (fun n => -(Int.ofNat n))
  else if t.head? = some '+' then (natDigits t.tail).map Int.ofNat
  else (natDigits t).map Int.ofNat

/-- Python `float(s)` restricted to plain decimal numerals
(`[sign] digits [. digits]`), as an exact rational; `none` models the
`ValueError`.  Scientific notation and the named floats are outside the
data this pipeline normalizes. -/
def pyFloat (l : List Char) : Option ℚ :=
  let t := stripChars l
  let signed : Bool := t.head? = some '-'
  let u := if t.head? = some '-' ∨ t.head? = some '+' then t.tail else t
  let val : Option ℚ :=
    match splitOnChar '.' u with
    | [a] => (natDigits a).map (fun n : Nat => (n : ℚ))
    | [a, b] =>
      if a = [] ∧ b = [] then none
      else if (a = [] ∨ a.all Char.isDigit) ∧ (b = [] ∨ b.all Char.isDigit) then
        some (((natDigits a).getD 0 : ℚ) + ((natDigits b).getD 0 : ℚ) / (10 : ℚ) ^ b.length)
      else none
    | _ => none
  val.map (fun q => if signed then -q else q)

/-- Python `str(x)` for a non-missing cell. -/
def pyStr (c : Cell) : String :=
  match c with
  | .na => "nan"
  | .str s => s
  | .int n => toString n

/-! ## The per-field rules of `pipeline.py` -/

/-- The body of `parse_age_range` on the stripped text: the
`startswith "["` / `endswith ")"` / `"-" in s` checks, the inner
`split("-")` into exactly two parts, and `int(...)` on each part with
`ValueError` caught. -/
def parseAgeCore (t : List Char) : Option Int × Option Int :=
  if t.head? = some '[' ∧ t.getLast? = some ')' ∧ t.contains '-' then
    match splitOnChar '-' ((t.drop 1).dropLast) with
    | [a, b] =>
      match pyInt a, pyInt b with
      | some low, some high => (some low, some high)
      | _, _ => (none, none)
    | _ => (none, none)
  else (none, none)

/-- `parse_age_range`: convert an age like `"[60-70)"` into `(60, 70)`, or
`(None, None)` if invalid (`pd.isna` first, then `str(x).strip()` and the
checks of `parseAgeCore`). -/
def parse_age_range (c : Cell) : Option Int × Option Int :=
  match c with
  | .na => (none, none)
  | c0 => parseAgeCore (stripChars (pyStr c0).data)

/-- `clean_diag_code`, per cell: `astype("string").str.strip()`, map the
sentinels `"?"` and `""` to missing, then `.str.upper()`. -/
def clean_diag_code (c : Cell) : Cell :=
  match c with
  | .na => .na
  | c0 =>
    let t := pyStrip (pyStr c0)
    if t = "?" ∨ t = "" then .na else .str (pyUpper t)

/-- The leading numeric token of a diagnosis code, the regular expression
`(\d+(\.\d+)?)` anchored at the start, as an exact rational (`float(...)`
of the matched text never raises on such a token). -/
def leadingNumber (s : String) : Option ℚ :=
  let ds := s.data.takeWhile Char.isDigit
  if ds = [] then none
  else
    let rest := s.data.drop ds.length
    let ip : ℚ := ((natDigits ds).getD 0 : ℚ)
    match rest with
    | '.' :: tail =>
      let fs := tail.takeWhile Char.isDigit
      if fs = [] then some ip
      else some (ip + ((natDigits fs).getD 0 : ℚ) / (10 : ℚ) ^ fs.length)
    | _ => some ip

/-- `diag_group` of `transform_encounters`: missing stays missing; a code
whose text begins with `"250"` is `"diabetes"`; otherwise the leading
numeric token is bucketed by inclusive range, and a code with no leading
numeric token is `"other"`. -/
def diag_group (c : Cell) : Cell :=
  match c with
  | .na => .na
  | c0 =>
    let code := pyStr c0
    if code.data.take 3 = ['2', '5', '0'] then .str "diabetes"
    else
      match leadingNumber code with
      | none => .str "other"
      | some num =>
        if 390 ≤ num ∧ num ≤ 459 then .str "circulatory"
        else if 460 ≤ num ∧ num ≤ 519 then .str "respiratory"
        else if 520 ≤ num ∧ num ≤ 579 then .str "digestive"
        else .str "other"

/-- `standardize_med_status`, per cell: `astype("string").str.strip()` then
`Series.map` of the fixed dictionary; a value not in the dictionary maps to
missing, as `Series.map` does (the dictionary itself already sends `"?"`,
`"NA"` and `"None"` to missing). -/
def standardize_med_status (c : Cell) : Cell :=
  match c with
  | .na => .na
  | c0 =>
    let t := pyStrip (pyStr c0)
    if t = "No" then .str "no"
    else if t = "Steady" then .str "steady"
    else if t = "Up" then .str "increased"
    else if t = "Down" then .str "decreased"
    else .na

/-- The medication active flag of `transform_encounters`:
`map({"steady": 1, "increased": 1, "decreased": 1, "no": 0})` on the
standardized value; anything else (including missing) maps to missing. -/
def med_active_flag (c : Cell) : Cell :=
  match c with
  | .str s =>
    if s = "steady" ∨ s = "increased" ∨ s = "decreased" then .int 1
    else if s = "no" then .int 0
    else .na
  | _ => .na

/-- `encode_gender`'s first map: `{"Male": "M", "Female": "F",
"Unknown/Invalid": "U"}`, unmapped values to missing (`Series.map`). -/
def encode_gender_clean (c : Cell) : Cell :=
  match c with
  | .str "Male" => .str "M"
  | .str "Female" => .str "F"
  | .str "Unknown/Invalid" => .str "U"
  | _ => .na

/-- `encode_gender`'s flag: `{"F": 1, "M": 0, "U": pd.NA}` on the cleaned
value, then `astype("Int64")` (only integers and missing reach it). -/
def gender_female_flag (c : Cell) : Cell :=
  match c with
  | .str "F" => .int 1
  | .str "M" => .int 0
  | _ => .na

/-- `encode_race`: `astype("string").str.strip()` then the `race_map`;
unmapped values to missing. -/
def encode_race_clean (c : Cell) : Cell :=
  match c with
  | .na => .na
  | c0 =>
    let t := pyStrip (pyStr c0)
    if t = "Caucasian" then .str "Caucasian"
    else if t = "AfricanAmerican" then .str "African American"
    else if t = "Asian" then .str "Asian"
    else if t = "Hispanic" then .str "Hispanic"
    else if t = "Other" then .str "Other"
    else .na

/-- `encode_readmitted`'s normalization:
`astype("string").str.strip().str.upper()`. -/
def readmitted_norm (c : Cell) : Cell :=
  match c with
  | .na => .na
  | c0 => .str (pyUpper (pyStrip (pyStr c0)))

/-- `encode_readmitted`'s any-readmission flag on the normalized value:
`replace({"NO": 0, "<30": 1, ">30": 1}).astype("Int64")`.  `Series.replace`
leaves a value outside the dictionary unchanged, so a leftover string makes
the `astype("Int64")` conversion raise: the error branch models that
`TypeError`. -/
def readmitted_any_flag (c : Cell) : Except String Cell :=
  match c with
  | .na => .ok .na
  | .int n => .ok (.int n)
  | .str s =>
    if s = "NO" then .ok (.int 0)
    else if s = "<30" then .ok (.int 1)
    else if s = ">30" then .ok (.int 1)
    else .error "TypeError: object cannot be converted to an IntegerDtype"

/-- `encode_readmitted`'s 30-day flag on the normalized value:
`replace({"NO": 0, "<30": 1, ">30": 0}).astype("Int64")`, raising on a
leftover non-missing value exactly as the any-flag does. -/
def readmitted_30d_flag (c : Cell) : Except String Cell :=
  match c with
  | .na => .ok .na
  | .int n => .ok (.int n)
  | .str s =>
    if s = "NO" then .ok (.int 0)
    else if s = "<30" then .ok (.int 1)
    else if s = ">30" then .ok (.int 0)
    else .error "TypeError: object cannot be converted to an IntegerDtype"

/-- Both readmission flags of `encode_readmitted`, from the raw cell. -/
def encode_readmitted_flags (c : Cell) : Except String (Cell × Cell) := do
  let n := readmitted_norm c
  let a ← readmitted_any_flag n
  let t ← readmitted_30d_flag n
  pure (a, t)

/-- The lab-result cleaning of `transform_encounters`:
`astype("string").str.strip()` then `replace({"None", "?", ""} → missing)`. -/
def clean_lab (c : Cell) : Cell :=
  match c with
  | .na => .na
  | c0 =>
    let t := pyStrip (pyStr c0)
    if t = "None" ∨ t = "?" ∨ t = "" then .na else .str t

/-- `pd.to_numeric(col, errors="coerce").astype("Int64")`, per cell: an
unparseable or missing value coerces to missing; a numeral with a fractional
part makes the `astype("Int64")` cast raise (`cannot safely cast`). -/
def to_numeric_Int64 (c : Cell) : Except String Cell :=
  match c with
  | .na => .ok .na
  | .int n => .ok (.int n)
  | .str s =>
    match pyFloat s.data with
    | none => .ok .na
    | some q =>
      if q.den = 1 then .ok (.int q.num)
      else .error "TypeError: cannot safely cast non-equivalent float64 to int64"

/-- `astype("string")`, per cell: an integer renders as its text. -/
def astype_string (c : Cell) : Cell :=
  match c with
  | .na => .na
  | .str s => .str s
  | .int n => .str (toString n)

/-! ## DataFrames -/

/-- A pandas DataFrame: ordered column labels and rows of cells, each row
aligned positionally with the labels. -/
structure DF where
  cols : List String
  rows : List (List Cell)
deriving DecidableEq, Repr

/-- Every row has exactly one cell per column — the shape every pandas
DataFrame guarantees. -/
def Aligned (df : DF) : Prop := ∀ r ∈ df.rows, r.length = df.cols.length

instance (df : DF) : Decidable (Aligned df) := by
  unfold Aligned; infer_instance

/-- The position of a column label: the first occurrence, which is the one
`df[name]` reads and writes. -/
def colIdx (cols : List String) (name : String) : Option Nat :=
  cols.findIdx? (fun c => c = name)

/-- `df[name]` at one row: the cell at the label's first position, missing
when the label is absent. -/
def getCell (cols : List String) (row : List Cell) (name : String) : Cell :=
  match colIdx cols name with
  | some i => row.getD i .na
  | none => .na

/-- `df[target] = series`: overwrite the column when the label exists,
append it at the end otherwise. -/
def setColCells (df : DF) (target : String) (cells : List Cell) : DF :=
  match colIdx df.cols target with
  | some j => ⟨df.cols, List.zipWith (fun r c => r.set j c) df.rows cells⟩
  | none => ⟨df.cols ++ [target], List.zipWith (fun r c => r ++ [c]) df.rows cells⟩

/-- `df[target] = g(df[src])` for a rule `g` that cannot raise; the read of a
missing source column is the `KeyError` Python raises there. -/
def assignMap (df : DF) (src target : String) (g : Cell → Cell) : Except String DF :=
  match colIdx df.cols src with
  | none => .error ("KeyError: " ++ src)
  | some i => .ok (setColCells df target (df.rows.map (fun r => g (r.getD i .na))))

/-- `if src in df.columns: df[target] = g(df[src])` for a rule that cannot
raise: the guarded form never errors. -/
def assignMapIf (df : DF) (src target : String) (g : Cell → Cell) : DF :=
  match colIdx df.cols src with
  | none => df
  | some i => setColCells df target (df.rows.map (fun r => g (r.getD i .na)))

/-- Apply a fallible rule to every element, stopping at the first raise
(the elementwise evaluation a raising pandas operation performs). -/
def mapExcept {α β : Type} (f : α → Except String β) : List α → Except String (List β)
  | [] => .ok []
  | a :: as => do
    let b ← f a
    let bs ← mapExcept f as
    pure (b :: bs)

/-- `if src in df.columns: df[target] = g(df[src])` for a rule that can
raise. -/
def assignMapIfE (df : DF) (src target : String) (g : Cell → Except String Cell) :
    Except String DF :=
  match colIdx df.cols src with
  | none => .ok df
  | some i => do
    let cells ← mapExcept (fun r => g (r.getD i .na)) df.rows
    pure (setColCells df target cells)

/-- `df[target] = f(row)` for a rule reading several columns of the row. -/
def setColRowFun (df : DF) (target : String) (f : List Cell → Cell) : DF :=
  setColCells df target (df.rows.map f)

/-- `df.rename(columns={old: new})`: relabel every occurrence. -/
def renameCol (df : DF) (old new : String) : DF :=
  ⟨df.cols.map (fun c => if c = old then new else c), df.rows⟩

/-- The lowercase snake-cased labels of step 6 of `transform_encounters`. -/
def snakeCols (df : DF) : DF := ⟨df.cols.map to_snake, df.rows⟩

/-- The cells of a right-table row at the non-key columns, in column order. -/
def dropKeyCells (cols : List String) (key : String) (row : List Cell) : List Cell :=
  (cols.zip row).filterMap (fun p => if p.1 = key then none else some p.2)

/-- `left.merge(right, on=key, how="left")`: left rows in order; an
unmatched left row keeps missing right fields; a matched left row is
repeated once per matching right row; overlapping non-key labels get the
`_x` / `_y` suffixes; a missing key column on either side is the `KeyError`
pandas raises.  Missing keys match missing keys, as pandas joins NaN key
values to each other. -/
def merge (l r : DF) (key : String) : Except String DF :=
  match colIdx l.cols key, colIdx r.cols key with
  | some li, some ri =>
    let lcols := l.cols.map (fun c => if c ≠ key ∧ r.cols.contains c then c ++ "_x" else c)
    let rcols := (r.cols.filter (fun c => c ≠ key)).map
      (fun c => if l.cols.contains c then c ++ "_y" else c)
    let rows := l.rows.flatMap (fun lrow =>
      let k := lrow.getD li .na
      let ms := r.rows.filter (fun rr => rr.getD ri .na = k)
      if ms.isEmpty then [lrow ++ List.replicate rcols.length Cell.na]
      else ms.map (fun rr => lrow ++ dropKeyCells r.cols key rr))
    .ok ⟨lcols ++ rcols, rows⟩
  | _, _ => .error ("KeyError: " ++ key)

/-! ## `transform_encounters` -/

/-- The eight clinical-counter columns of step 1. -/
def numeric_cols : List String :=
  ["time_in_hospital", "num_lab_procedures", "num_procedures", "num_medications",
   "number_outpatient", "number_emergency", "number_inpatient", "number_diagnoses"]

/-- The five identifier columns of step 1. -/
def id_cols : List String :=
  ["encounter_id", "patient_nbr", "admission_type_id",
   "discharge_disposition_id", "admission_source_id"]

/-- The three diagnosis columns of step 2. -/
def diag_cols : List String := ["diag_1", "diag_2", "diag_3"]

/-- The 23 medication columns of step 3, five of them hyphenated. -/
def med_cols : List String :=
  ["metformin", "repaglinide", "nateglinide", "chlorpropamide",
   "glimepiride", "acetohexamide", "glipizide", "glyburide",
   "tolbutamide", "pioglitazone", "rosiglitazone", "acarbose",
   "miglitol", "troglitazone", "tolazamide", "examide",
   "citoglipton", "insulin", "glyburide-metformin",
   "glipizide-metformin", "glimepiride-pioglitazone",
   "metformin-rosiglitazone", "metformin-pioglitazone"]

/-- The two lab columns of step 4. -/
def lab_cols : List String := ["A1Cresult", "max_glu_serum"]

/-- The derived active-medication count's label. -/
def numActiveName : String := "num_active_diabetes_meds"

/-- `df[active_flags].sum(axis=1)` at one row: missing flags count 0, as
pandas' default `skipna` summation does. -/
def rowActiveCount (flagCells : List Cell) : Int :=
  (flagCells.map (fun c => match c with | .int n => n | _ => 0)).sum

/-- The medication columns the raw row set actually has, in `med_cols`
order: the `col in df.columns` filter of step 3. -/
def medsPresent (df : DF) : List String :=
  med_cols.filter (fun c => (colIdx df.cols c).isSome)

/-- The `active_flags` list accumulated by step 3's loop. -/
def activeFlagCols (df : DF) : List String :=
  (medsPresent df).map (fun c => c ++ "_clean_active_flag")

/-- One iteration of step 3's loop: standardize one medication column and
derive its active flag. -/
def medsLoopStep (d : DF) (c : String) : DF :=
  assignMapIf (assignMapIf d c (c ++ "_clean") standardize_med_status)
    (c ++ "_clean") (c ++ "_clean_active_flag") med_active_flag

/-- Step 3's loop: standardize each present medication column and derive
its active flag. -/
def medsFold (df : DF) : DF := (medsPresent df).foldl medsLoopStep df

/-- Step 3 of `transform_encounters`: the loop, then (when at least one
medication column was present) the rowwise flag sum into
`num_active_diabetes_meds`. -/
def medsStep (df : DF) : DF :=
  if (activeFlagCols df).isEmpty then medsFold df
  else setColRowFun (medsFold df) numActiveName
    (fun row => .int (rowActiveCount
      ((activeFlagCols df).map (fun fc => getCell (medsFold df).cols row fc))))

/-- The lookup-table preparation of step 5: coerce the id column to string
(a `KeyError` when absent) and rename `description` when present. -/
def prepLookup (t : DF) (idName descName : String) : Except String DF := do
  let t ← assignMap t idName idName astype_string
  pure (if (colIdx t.cols "description").isSome then renameCol t "description" descName else t)

/-- Step 1a of `transform_encounters`: the eight clinical counters through
`pd.to_numeric(...).astype("Int64")` when present. -/
def numericStage (df : DF) : Except String DF :=
  numeric_cols.foldlM (fun d c => assignMapIfE d c c to_numeric_Int64) df

/-- Step 1b: the five id-like columns as text when present. -/
def idStage (df : DF) : DF :=
  id_cols.foldl (fun d c => assignMapIf d c c astype_string) df

/-- Step 2: diagnosis cleaning for each present `diag_i`, then the
`diag_1_group` derivation (which reads `diag_1_clean` unconditionally). -/
def diagStage (df : DF) : Except String DF :=
  let df := diag_cols.foldl (fun d c => assignMapIf d c (c ++ "_clean") clean_diag_code) df
  assignMap df "diag_1_clean" "diag_1_group" diag_group

/-- Step 4: gender, race and readmission encodings (the readmission flags
can raise on an unrecognized value). -/
def encodeStage (df : DF) : Except String DF := do
  let df ← assignMap df "gender" "gender_clean" encode_gender_clean
  let df ← assignMap df "gender_clean" "gender_female_flag" gender_female_flag
  let df ← assignMap df "race" "race_clean" encode_race_clean
  let df ← assignMap df "readmitted" "readmitted_raw_clean" readmitted_norm
  let df ← assignMapIfE df "readmitted_raw_clean" "readmitted_any_flag" readmitted_any_flag
  assignMapIfE df "readmitted_raw_clean" "readmitted_30d_flag" readmitted_30d_flag

/-- The lab-result cleaning of step 4. -/
def labStage (df : DF) : DF :=
  lab_cols.foldl (fun d c => assignMapIf d c (c ++ "_clean") clean_lab) df

/-- `transform_encounters`: the full ordered rule set of the Transformation
Engine over the raw rows and the three lookup tables. -/
def transform_encounters (df_raw t1 t2 t3 : DF) : Except String DF := do
  let df ← numericStage df_raw
  let df ← diagStage (idStage df)
  let df ← encodeStage (medsStep df)
  let u1 ← prepLookup t1 "admission_type_id" "admission_type_desc"
  let u2 ← prepLookup t2 "discharge_disposition_id" "discharge_disposition_desc"
  let u3 ← prepLookup t3 "admission_source_id" "admission_source_desc"
  let df ← merge (labStage df) u1 "admission_type_id"
  let df ← merge df u2 "discharge_disposition_id"
  let df ← merge df u3 "admission_source_id"
  pure (snakeCols df)

/-! ## `parse_lookup_blocks` -/

/-- The lines of a text, split on the newline character. -/
def linesOf (text : String) : List String :=
  (splitOnChar '\n' text.data).map String.mk

/-- The block loop of `parse_lookup_blocks`: a line whose stripped text is
`""` or `","` separates blocks; `current` carries the open block's lines in
reverse. -/
def blocksAux : List String → List String → List (List String)
  | [], current => if current.isEmpty then [] else [current.reverse]
  | l :: ls, current =>
    if pyStrip l = "" ∨ pyStrip l = "," then
      if current.isEmpty then blocksAux ls [] else current.reverse :: blocksAux ls []
    else blocksAux ls (l :: current)

/-- The non-blank blocks of the composite lookup file. -/
def blocksOf (text : String) : List (List String) := blocksAux (linesOf text) []

/-- `pd.read_csv(StringIO(block), dtype=str)` for one small lookup block:
the first line is the header, commas separate the fields, an empty field is
missing. -/
def readCsvBlock (lines : List String) : DF :=
  match lines with
  | [] => ⟨[], []⟩
  | h :: rest =>
    ⟨(splitOnChar ',' h.data).map String.mk,
     rest.map (fun l => (splitOnChar ',' l.data).map
       (fun cs => if cs = [] then Cell.na else Cell.str (String.mk cs)))⟩

/-- `parse_lookup_blocks`: split the composite file into blocks and parse
each as a table.  When the block count differs from three the source only
logs a warning and then executes the three-name tuple unpacking, which
raises Python's generic `ValueError`; the error branch models exactly that
unpacking failure — there is no named shape error. -/
def parse_lookup_blocks (text : String) : Except String (DF × DF × DF) :=
  let dfs := (blocksOf text).map readCsvBlock
  match dfs with
  | [a, b, c] => .ok (a, b, c)
  | _ => .error "ValueError: tuple unpacking of the parsed blocks failed"

/-! ## The Data Quality Auditor's age checks -/

/-- The `(low, high)` pairs of the ages that parse: the zipped `lows` and
`highs` of `validate_logical_constraints` (the parser yields both bounds or
neither, so the zip pairs the same rows). -/
def parsedAgePairs (ages : List Cell) : List (Int × Int) :=
  (ages.filter (fun c => c ≠ .na)).filterMap (fun c =>
    match parse_age_range c with
    | (some low, some high) => some (low, high)
    | _ => none)

/-- `age_out_of_0_120` of `validate_logical_constraints`: among the parsed
buckets, those with `low < 0 or high > 120`. -/
def age_out_of_0_120 (ages : List Cell) : Nat :=
  (parsedAgePairs ages).countP (fun p => decide (p.1 < 0 ∨ 120 < p.2))

/-! ## The Summary Aggregator's readmission rates -/

/-- `df["readmitted"].str.upper().str.strip() != "NO"` at one cell.  The
`.str` accessor turns a non-string into missing, and pandas evaluates
`NaN != "NO"` as `True`, so a missing status counts as a readmission. -/
def readmitted_ne_NO (c : Cell) : Bool :=
  match c with
  | .str s => decide (pyStrip (pyUpper s) ≠ "NO")
  | _ => true

/-- `df["readmitted"].str.upper().str.strip() == "<30"` at one cell; a
missing status compares `False`. -/
def readmitted_eq_lt30 (c : Cell) : Bool :=
  match c with
  | .str s => decide (pyStrip (pyUpper s) = "<30")
  | _ => false

/-- `series.mean()` of a boolean series: the fraction of `True` over all
rows, `NaN` (here `none`) on an empty series. -/
def boolMean (bs : List Bool) : Option ℚ :=
  if bs.isEmpty then none else some ((bs.countP id : ℚ) / (bs.length : ℚ))

/-- `readmission_rate_any` of `generate_summaries`:
`(readmitted_upper != "NO").mean()`. -/
def readmission_rate_any (statuses : List Cell) : Option ℚ :=
  boolMean (statuses.map readmitted_ne_NO)

/-- `readmission_rate_30d` of `generate_summaries`:
`(readmitted_upper == "<30").mean()`. -/
def readmission_rate_30d (statuses : List Cell) : Option ℚ :=
  boolMean (statuses.map readmitted_eq_lt30)

/-- The distinct group keys of a `groupby(key, dropna=False)`, in first
appearance order (the tables re-sort by key afterwards; the sort permutes
rows and does not change any rate). -/
def groupKeysOf (keys : List Cell) : List Cell := keys.dedup

/-- The readmission-by-age table of `generate_summaries`: per age bucket,
the encounter count and the mean of `readmitted_any`
(`ne("NO")` after upper/strip). -/
def readmission_by_age (ages statuses : List Cell) : List (Cell × Nat × Option ℚ) :=
  (groupKeysOf ages).map (fun k =>
    let group := ((ages.zip statuses).filter (fun p => p.1 = k)).map Prod.snd
    (k, group.length, readmission_rate_any group))

/-! ## The join-key view of a lookup table -/

/-- The id-column cells of a lookup table as the join sees them: coerced to
text, exactly as step 5 of `transform_encounters` coerces them before
merging. -/
def lookupKeys (t : DF) (id : String) : List Cell :=
  t.rows.map (fun r => astype_string (getCell t.cols r id))

/-- A lookup table has unique keys in its id column. -/
def UniqueKeys (t : DF) (id : String) : Prop := (lookupKeys t id).Nodup

instance (t : DF) (id : String) : Decidable (UniqueKeys t id) := by
  unfold UniqueKeys; infer_instance

/-! ## Definitions written from the specification's words

These follow the specification rather than the source; each is compared
with the corresponding source-derived definition by a theorem below. -/

/-- The spec's bucket grammar on stripped text: `[low-high)` with integer
`low` and `high` (an integer being what Python's `int(...)` accepts). -/
def bucketGrammarCore (t : List Char) : Bool :=
  t.head? = some '[' && t.getLast? = some ')' &&
    match splitOnChar '-' ((t.drop 1).dropLast) with
    | [a, b] => (pyInt a).isSome && (pyInt b).isSome
    | _ => false

/-- The spec's bucket grammar `[low-high)` with integer `low` and `high`. -/
def bucketGrammar (s : String) : Bool := bucketGrammarCore (stripChars s.data)

/-- The spec's medication table: trim; `"No"→"no"`, `"Steady"→"steady"`,
`"Up"→"increased"`, `"Down"→"decreased"`; `"?"`, `"NA"`, `"None"` to
missing; every other literal value to missing. -/
def medStatusSpec (c : Cell) : Cell :=
  match c with
  | .na => .na
  | c0 =>
    let t := pyStrip (pyStr c0)
    if t = "No" then .str "no"
    else if t = "Steady" then .str "steady"
    else if t = "Up" then .str "increased"
    else if t = "Down" then .str "decreased"
    else if t = "?" ∨ t = "NA" ∨ t = "None" then .na
    else .na

/-- The spec's active flag on the standardized value:
`{"steady","increased","decreased"} → 1`, `"no" → 0`, missing → missing. -/
def activeFlagSpec (c : Cell) : Cell :=
  match c with
  | .na => .na
  | .str s =>
    if s = "steady" ∨ s = "increased" ∨ s = "decreased" then .int 1
    else if s = "no" then .int 0
    else .na
  | .int _ => .na

/-- A flag cell as the optional integer the spec speaks of. -/
def flagValue (c : Cell) : Option Int :=
  match c with
  | .int n => some n
  | _ => none

/-- The amended readmission encoding: trim+uppercase; `NO → (0, 0)`,
`<30 → (1, 1)`, `>30 → (1, 0)`, missing propagates; any other non-missing
value makes the integer conversion raise. -/
def readmittedFlagsAmended (c : Cell) : Except String (Cell × Cell) :=
  match c with
  | .na => .ok (.na, .na)
  | c0 =>
    let u := pyUpper (pyStrip (pyStr c0))
    if u = "NO" then .ok (.int 0, .int 0)
    else if u = "<30" then .ok (.int 1, .int 1)
    else if u = ">30" then .ok (.int 1, .int 0)
    else .error "TypeError: object cannot be converted to an IntegerDtype"

/-- The readmission-rate indicator the claim would need: the mean over rows
whose status is present, a missing status excluded from numerator and
denominator. -/
def rateAnySpecPresent (statuses : List Cell) : Option ℚ :=
  let present := statuses.filter (fun c => c ≠ .na)
  if present = [] then none
  else some ((present.countP (fun c => decide (pyStrip (pyUpper (pyStr c)) ≠ "NO")) : ℚ) /
    (present.length : ℚ))

/-- The amended any-readmission indicator: over all rows, a missing status
counting as a readmission (pandas evaluates `NaN != "NO"` as `True`). -/
def anyReadmittedAllRows (c : Cell) : Bool :=
  match c with
  | .str s => decide (pyStrip (pyUpper s) ≠ "NO")
  | _ => true

/-- The amended 30-day indicator: over all rows, a missing status counting
as not-within-30-days. -/
def thirtyReadmittedAllRows (c : Cell) : Bool :=
  match c with
  | .str s => decide (pyStrip (pyUpper s) = "<30")
  | _ => false

/-- The amended any-readmission rate: the mean over all rows. -/
def rateAnyAmendedSpec (statuses : List Cell) : Option ℚ :=
  if statuses = [] then none
  else some ((statuses.countP anyReadmittedAllRows : ℚ) / (statuses.length : ℚ))

/-- The amended 30-day rate: the mean over all rows. -/
def rate30dAmendedSpec (statuses : List Cell) : Option ℚ :=
  if statuses = [] then none
  else some ((statuses.countP thirtyReadmittedAllRows : ℚ) / (statuses.length : ℚ))

/-! ## Concrete inputs used by the closed theorems -/

/-- The spec's synthetic aggregation example: 2 `"NO"`, 1 `"<30"`, 1 `">30"`. -/
def fourRowStatuses : List Cell :=
  [.str "NO", .str "NO", .str "<30", .str ">30"]

/-- A composite lookup file with two non-blank blocks (the second separator
line is a lone comma). -/
def twoBlockLookupText : String :=
  "admission_type_id,description\n1,Emergency\n,\nadmission_source_id,description\n7,ER"

/-- A one-row admission-type lookup table. -/
def c8lookup1 : DF :=
  ⟨["admission_type_id", "description"], [[.str "1", .str "Emergency"]]⟩

/-- A one-row discharge-disposition lookup table. -/
def c8lookup2 : DF :=
  ⟨["discharge_disposition_id", "description"], [[.str "1", .str "Discharged to home"]]⟩

/-- A one-row admission-source lookup table. -/
def c8lookup3 : DF :=
  ⟨["admission_source_id", "description"], [[.str "7", .str "Emergency Room"]]⟩

/-- A one-row raw input whose only active medication is the hyphen-named
`glyburide-metformin`. -/
def c8raw : DF :=
  ⟨["diag_1", "gender", "race", "readmitted", "admission_type_id",
    "discharge_disposition_id", "admission_source_id", "metformin", "glyburide-metformin"],
   [[.str "250.83", .str "Female", .str "Caucasian", .str "<30", .str "1", .str "1", .str "7",
     .str "No", .str "Steady"]]⟩

/-- The Transformation Engine's output on `c8raw`. -/
def c8run1 : DF :=
  ((transform_encounters c8raw c8lookup1 c8lookup2 c8lookup3).toOption).getD ⟨[], []⟩

/-- The Transformation Engine re-applied to its own output. -/
def c8run2 : DF :=
  ((transform_encounters c8run1 c8lookup1 c8lookup2 c8lookup3).toOption).getD ⟨[], []⟩

/-- A one-row raw input for instantiating the row-count invariant. -/
def c1raw : DF :=
  ⟨["diag_1", "gender", "race", "readmitted", "admission_type_id",
    "discharge_disposition_id", "admission_source_id", "insulin"],
   [[.str "486", .str "Male", .str "Other", .str "NO", .str "1", .str "1", .str "7",
     .str "Up"]]⟩

/-- The Transformation Engine's output on `c1raw`. -/
def c1out : DF :=
  ((transform_encounters c1raw c8lookup1 c8lookup2 c8lookup3).toOption).getD ⟨[], []⟩

/-- The column names the Transformation Engine appends before the
medication loop runs. -/
def diagCleanNames : List String :=
  ["diag_1_clean", "diag_2_clean", "diag_3_clean", "diag_1_group"]

/-- The column names the medication loop can append. -/
def medCleanFlagNames : List String :=
  med_cols.flatMap (fun c => [c ++ "_clean", c ++ "_clean_active_flag"])

/-- A column label that can never be confused with
`num_active_diabetes_meds`: it differs from it and keeps differing after
name canonicalization. -/
def SafeCol (c : String) : Prop :=
  to_snake c ≠ numActiveName ∧ c ≠ numActiveName

instance (c : String) : Decidable (SafeCol c) := by
  unfold SafeCol; infer_instance

/-- What a medication active-flag cell can be: missing, 0 or 1. -/
def FlagCell (c : Cell) : Prop := c = .na ∨ c = .int 0 ∨ c = .int 1

/-- Every row's cell in one column satisfies a predicate. -/
def RowsP (df : DF) (name : String) (Q : Cell → Prop) : Prop :=
  ∀ r ∈ df.rows, Q (getCell df.cols r name)

/-- The derived-count column is tracked through the tail of the pipeline:
it sits at a first-occurrence index, every column before it is safe, and
every row is aligned with the cell there satisfying `P`. -/
def Tracked (df : DF) (P : Cell → Prop) : Prop :=
  ∃ i, colIdx df.cols numActiveName = some i ∧
    (∀ c ∈ df.cols.take i, SafeCol c) ∧
    ∀ r ∈ df.rows, r.length = df.cols.length ∧ P (r.getD i .na)

/-- A two-row raw input for instantiating the active-count invariant: the
second row's medication statuses are only missing or `"No"`. -/
def c10raw : DF :=
  ⟨["metformin", "insulin", "diag_1", "gender", "race", "readmitted", "admission_type_id",
    "discharge_disposition_id", "admission_source_id"],
   [[.str "Steady", .str "No", .str "410", .str "Male", .str "Asian", .str ">30",
     .str "1", .str "1", .str "7"],
    [.str "No", .na, .na, .str "Female", .str "?", .str "NO",
     .str "1", .str "1", .str "7"]]⟩

/-- The Transformation Engine's output on `c10raw`. -/
def c10out : DF :=
  ((transform_encounters c10raw c8lookup1 c8lookup2 c8lookup3).toOption).getD ⟨[], []⟩

/-! ## Supporting lemmas -/

theorem splitOnChar_ne_nil (sep : Char) (l : List Char) : splitOnChar sep l ≠ [] := by
  induction l with
  | nil => simp [splitOnChar]
  | cons c rest ih =>
    unfold splitOnChar
    by_cases h : c = sep
    · simp [h]
    · simp only [if_neg h]
      cases hs : splitOnChar sep rest with
      | nil => simp
      | cons t ts => simp

theorem length_splitOnChar (sep : Char) (l : List Char) :
    (splitOnChar sep l).length = l.count sep + 1 := by
  induction l with
  | nil => simp [splitOnChar]
  | cons c rest ih =>
    unfold splitOnChar
    by_cases h : c = sep
    · subst h
      simp [List.count_cons, ih]
    · simp only [if_neg h]
      cases hs : splitOnChar sep rest with
      | nil => exact absurd hs (splitOnChar_ne_nil sep rest)
      | cons t ts =>
        rw [hs] at ih
        have hbeq : (c == sep) = false := beq_eq_false_iff_ne.mpr h
        simp only [List.length_cons, List.count_cons, hbeq, if_false, Bool.false_eq_true] at ih ⊢
        omega

theorem not_mem_of_mem_splitOnChar (sep : Char) (l : List Char) :
    ∀ p ∈ splitOnChar sep l, sep ∉ p := by
  induction l with
  | nil =>
    intro p hp
    simp [splitOnChar] at hp
    simp [hp]
  | cons c rest ih =>
    intro p hp
    unfold splitOnChar at hp
    by_cases h : c = sep
    · rw [if_pos h] at hp
      rcases List.mem_cons.mp hp with h0 | h0
      · simp [h0]
      · exact ih p h0
    · rw [if_neg h] at hp
      cases hs : splitOnChar sep rest with
      | nil => exact absurd hs (splitOnChar_ne_nil sep rest)
      | cons t ts =>
        rw [hs] at hp
        rcases List.mem_cons.mp hp with h0 | h0
        · subst h0
          intro hm
          rcases List.mem_cons.mp hm with h1 | h1
          · exact h h1.symm
          · exact ih t (hs ▸ List.mem_cons_self t ts) h1
        · exact ih p (hs ▸ List.mem_cons_of_mem t h0)

theorem mem_of_mem_stripChars {a : Char} {l : List Char} (h : a ∈ stripChars l) : a ∈ l := by
  unfold stripChars at h
  rw [List.mem_reverse] at h
  have h1 := (List.dropWhile_sublist _).subset h
  rw [List.mem_reverse] at h1
  exact (List.dropWhile_sublist _).subset h1

theorem pyInt_nonneg {l : List Char} (hm : '-' ∉ l) {n : Int}
    (hn : pyInt l = some n) : 0 ≤ n := by
  unfold pyInt at hn
  by_cases hneg : (stripChars l).head? = some '-'
  · exfalso
    apply hm
    apply mem_of_mem_stripChars
    cases hc : stripChars l with
    | nil => rw [hc] at hneg; simp at hneg
    | cons c0 rest =>
      rw [hc] at hneg
      simp at hneg
      rw [hneg]
      exact List.mem_cons_self '-' rest
  · rw [if_neg hneg] at hn
    by_cases hpos : (stripChars l).head? = some '+'
    · rw [if_pos hpos] at hn
      rcases Option.map_eq_some'.mp hn with ⟨m, _, hv⟩
      rw [← hv]
      exact Int.ofNat_nonneg m
    · rw [if_neg hpos] at hn
      rcases Option.map_eq_some'.mp hn with ⟨m, _, hv⟩
      rw [← hv]
      exact Int.ofNat_nonneg m

theorem getD_set_self {l : List Cell} {i : Nat} {a d : Cell} (h : i < l.length) :
    (l.set i a).getD i d = a := by
  rw [List.getD_eq_getElem?_getD, List.getElem?_set_self (by simpa using h)]
  rfl

theorem getD_set_ne {l : List Cell} {i j : Nat} {a d : Cell} (hne : j ≠ i) :
    (l.set j a).getD i d = l.getD i d := by
  rw [List.getD_eq_getElem?_getD, List.getElem?_set_ne hne, ← List.getD_eq_getElem?_getD]

theorem except_bind_ok {α β : Type} {x : Except String α} {f : α → Except String β} {b : β} :
    x >>= f = .ok b ↔ ∃ a, x = .ok a ∧ f a = .ok b := by
  cases x with
  | error e => simp [Bind.bind, Except.bind]
  | ok a => simp [Bind.bind, Except.bind]

theorem except_pure_ok {α : Type} {a b : α} :
    (pure a : Except String α) = .ok b ↔ a = b := by
  simp [pure, Except.pure]

theorem length_mapExcept {α β : Type} {f : α → Except String β} :
    ∀ {l : List α} {l' : List β}, mapExcept f l = .ok l' → l'.length = l.length := by
  intro l
  induction l with
  | nil =>
    intro l' h
    simp [mapExcept, except_pure_ok] at h
    rw [h]
    rfl
  | cons a as ih =>
    intro l' h
    unfold mapExcept at h
    rcases except_bind_ok.mp h with ⟨b, hb, h2⟩
    rcases except_bind_ok.mp h2 with ⟨bs, hbs, h3⟩
    rw [except_pure_ok] at h3
    rw [← h3]
    simp [ih hbs]

theorem length_setColCells (df : DF) (t : String) (cells : List Cell) :
    (setColCells df t cells).rows.length = min df.rows.length cells.length := by
  unfold setColCells
  cases colIdx df.cols t <;> simp [List.length_zipWith]

theorem length_assignMapIf (df : DF) (s t : String) (g : Cell → Cell) :
    (assignMapIf df s t g).rows.length = df.rows.length := by
  unfold assignMapIf
  cases colIdx df.cols s with
  | none => rfl
  | some i => simp [length_setColCells]

theorem length_assignMap {df u : DF} {s t : String} {g : Cell → Cell}
    (h : assignMap df s t g = .ok u) : u.rows.length = df.rows.length := by
  unfold assignMap at h
  cases hc : colIdx df.cols s with
  | none => rw [hc] at h; cases h
  | some i =>
    rw [hc] at h
    simp only [Except.ok.injEq] at h
    rw [← h]
    simp [length_setColCells]

theorem length_assignMapIfE {df u : DF} {s t : String} {g : Cell → Except String Cell}
    (h : assignMapIfE df s t g = .ok u) : u.rows.length = df.rows.length := by
  unfold assignMapIfE at h
  cases hc : colIdx df.cols s with
  | none =>
    rw [hc] at h
    simp only [Except.ok.injEq] at h
    rw [h]
  | some i =>
    rw [hc] at h
    rcases except_bind_ok.mp h with ⟨cells, hcells, h2⟩
    rw [except_pure_ok] at h2
    rw [← h2]
    simp [length_setColCells, length_mapExcept hcells]

theorem length_setColRowFun (df : DF) (t : String) (f : List Cell → Cell) :
    (setColRowFun df t f).rows.length = df.rows.length := by
  unfold setColRowFun
  simp [length_setColCells]

theorem length_numericStage {df u : DF} (h : numericStage df = .ok u) :
    u.rows.length = df.rows.length := by
  unfold numericStage at h
  have gen : ∀ (cs : List String) (d v : DF),
      cs.foldlM (fun d c => assignMapIfE d c c to_numeric_Int64) d = .ok v →
      v.rows.length = d.rows.length := by
    intro cs
    induction cs with
    | nil =>
      intro d v h0
      rw [List.foldlM_nil, except_pure_ok] at h0
      rw [← h0]
    | cons c cs ih =>
      intro d v h0
      rw [List.foldlM_cons] at h0
      rcases except_bind_ok.mp h0 with ⟨d1, h1, h2⟩
      rw [ih d1 v h2, length_assignMapIfE h1]
  exact gen numeric_cols df u h

theorem length_foldl_assign (tf : String → String) (g : Cell → Cell) :
    ∀ (cs : List String) (df : DF),
      (cs.foldl (fun d c => assignMapIf d c (tf c) g) df).rows.length = df.rows.length := by
  intro cs
  induction cs with
  | nil => intro df; rfl
  | cons c cs ih =>
    intro df
    rw [List.foldl_cons, ih, length_assignMapIf]

theorem length_idStage (df : DF) : (idStage df).rows.length = df.rows.length :=
  length_foldl_assign (fun c => c) astype_string id_cols df

theorem length_diagStage {df u : DF} (h : diagStage df = .ok u) :
    u.rows.length = df.rows.length := by
  unfold diagStage at h
  rw [length_assignMap h, length_foldl_assign (fun c => c ++ "_clean") clean_diag_code]

theorem length_medsFold (df : DF) : (medsFold df).rows.length = df.rows.length := by
  unfold medsFold
  have gen : ∀ (cs : List String) (d : DF),
      (cs.foldl (fun d c =>
        assignMapIf (assignMapIf d c (c ++ "_clean") standardize_med_status)
          (c ++ "_clean") (c ++ "_clean_active_flag") med_active_flag) d).rows.length =
        d.rows.length := by
    intro cs
    induction cs with
    | nil => intro d; rfl
    | cons c cs ih =>
      intro d
      rw [List.foldl_cons, ih, length_assignMapIf, length_assignMapIf]
  exact gen (medsPresent df) df

theorem length_medsStep (df : DF) : (medsStep df).rows.length = df.rows.length := by
  unfold medsStep
  split
  · exact length_medsFold df
  · rw [length_setColRowFun, length_medsFold]

theorem length_encodeStage {df u : DF} (h : encodeStage df = .ok u) :
    u.rows.length = df.rows.length := by
  unfold encodeStage at h
  rcases except_bind_ok.mp h with ⟨d1, h1, h⟩
  rcases except_bind_ok.mp h with ⟨d2, h2, h⟩
  rcases except_bind_ok.mp h with ⟨d3, h3, h⟩
  rcases except_bind_ok.mp h with ⟨d4, h4, h⟩
  rcases except_bind_ok.mp h with ⟨d5, h5, h⟩
  rw [length_assignMapIfE h, length_assignMapIfE h5, length_assignMap h4,
    length_assignMap h3, length_assignMap h2, length_assignMap h1]

theorem length_labStage (df : DF) : (labStage df).rows.length = df.rows.length :=
  length_foldl_assign (fun c => c ++ "_clean") clean_lab lab_cols df

theorem length_filter_key_le_one {rows : List (List Cell)} {ri : Nat}
    (h : (rows.map (fun rr => rr.getD ri .na)).Nodup) (k : Cell) :
    (rows.filter (fun rr => rr.getD ri .na = k)).length ≤ 1 := by
  induction rows with
  | nil => simp
  | cons rr rest ih =>
    simp only [List.map_cons, List.nodup_cons] at h
    obtain ⟨hne, hrest⟩ := h
    by_cases hk : rr.getD ri .na = k
    · have hempty : rest.filter (fun r2 => r2.getD ri .na = k) = [] := by
        rw [List.filter_eq_nil_iff]
        intro r2 hr2
        simp only [decide_eq_true_eq]
        intro hk2
        exact hne (by rw [hk, ← hk2]; exact List.mem_map_of_mem _ hr2)
      rw [List.filter_cons, if_pos (decide_eq_true hk), hempty]
      rfl
    · rw [List.filter_cons, if_neg (by simp only [decide_eq_true_eq]; exact hk)]
      exact ih hrest

theorem merge_length {l r : DF} {key : String} {ri : Nat} {m : DF}
    (hri : colIdx r.cols key = some ri)
    (huniq : (r.rows.map (fun rr => rr.getD ri .na)).Nodup)
    (hok : merge l r key = .ok m) :
    m.rows.length = l.rows.length := by
  unfold merge at hok
  cases hli : colIdx l.cols key with
  | none => rw [hli, hri] at hok; cases hok
  | some li =>
    rw [hli, hri] at hok
    simp only [Except.ok.injEq] at hok
    rw [← hok]
    show (l.rows.flatMap _).length = l.rows.length
    have gen : ∀ (L : List (List Cell)) (f : List Cell → List (List Cell)),
        (∀ x ∈ L, (f x).length = 1) → (L.flatMap f).length = L.length := by
      intro L f hf
      induction L with
      | nil => simp
      | cons a as ih =>
        rw [List.flatMap_cons, List.length_append, hf a (List.mem_cons_self a as),
          ih (fun x hx => hf x (List.mem_cons_of_mem a hx)), List.length_cons]
        omega
    apply gen
    intro lrow _
    dsimp only
    by_cases he : (r.rows.filter (fun rr => rr.getD ri .na = lrow.getD li .na)).isEmpty
    · rw [if_pos he]
      rfl
    · rw [if_neg he, List.length_map]
      have hle := length_filter_key_le_one huniq (lrow.getD li .na)
      have hnil : (r.rows.filter (fun rr => rr.getD ri .na = lrow.getD li .na)) ≠ [] := by
        intro h0
        apply he
        rw [h0]
        rfl
      have hpos := List.length_pos.mpr hnil
      omega

theorem colIdx_cons (c : String) (cols : List String) (name : String) :
    colIdx (c :: cols) name =
      if c = name then some 0 else (colIdx cols name).map (· + 1) := by
  unfold colIdx
  rw [List.findIdx?_cons]
  by_cases h : c = name
  · simp [h]
  · simp [h]

theorem colIdx_map_iff {f : String → String} {name : String}
    (hf : ∀ c, f c = name ↔ c = name) :
    ∀ cols : List String, colIdx (cols.map f) name = colIdx cols name := by
  intro cols
  induction cols with
  | nil => rfl
  | cons c cs ih =>
    rw [List.map_cons, colIdx_cons, colIdx_cons, ih]
    by_cases h : c = name
    · rw [if_pos ((hf c).mpr h), if_pos h]
    · rw [if_neg (fun e => h ((hf c).mp e)), if_neg h]

theorem colIdx_lt_length {cols : List String} {name : String} {i : Nat}
    (h : colIdx cols name = some i) : i < cols.length := by
  induction cols generalizing i with
  | nil => cases h
  | cons c cs ih =>
    rw [colIdx_cons] at h
    by_cases hc : c = name
    · rw [if_pos hc] at h
      simp only [Option.some.injEq] at h
      simp [← h]
    · rw [if_neg hc] at h
      rcases Option.map_eq_some'.mp h with ⟨j, hj, hv⟩
      have := ih hj
      simp only [List.length_cons]
      omega

theorem colIdx_getD {cols : List String} {name : String} {i : Nat}
    (h : colIdx cols name = some i) : cols.getD i "" = name := by
  induction cols generalizing i with
  | nil => cases h
  | cons c cs ih =>
    rw [colIdx_cons] at h
    by_cases hc : c = name
    · rw [if_pos hc] at h
      simp only [Option.some.injEq] at h
      rw [← h]
      exact hc
    · rw [if_neg hc] at h
      rcases Option.map_eq_some'.mp h with ⟨j, hj, hv⟩
      rw [← hv]
      exact ih hj

theorem colIdx_take_ne {cols : List String} {name : String} {i : Nat}
    (h : colIdx cols name = some i) : ∀ c ∈ cols.take i, c ≠ name := by
  induction cols generalizing i with
  | nil => simp
  | cons c cs ih =>
    rw [colIdx_cons] at h
    by_cases hc : c = name
    · rw [if_pos hc] at h
      simp only [Option.some.injEq] at h
      rw [← h]
      simp
    · rw [if_neg hc] at h
      rcases Option.map_eq_some'.mp h with ⟨j, hj, hv⟩
      rw [← hv]
      intro x hx
      rw [List.take_succ_cons] at hx
      rcases List.mem_cons.mp hx with h0 | h0
      · rw [h0]; exact hc
      · exact ih hj x h0

theorem colIdx_append_left {cols : List String} {name : String} {i : Nat}
    (h : colIdx cols name = some i) (l : List String) :
    colIdx (cols ++ l) name = some i := by
  induction cols generalizing i with
  | nil => cases h
  | cons c cs ih =>
    rw [List.cons_append, colIdx_cons]
    rw [colIdx_cons] at h
    by_cases hc : c = name
    · rw [if_pos hc] at h
      rw [if_pos hc]
      exact h
    · rw [if_neg hc] at h
      rw [if_neg hc]
      rcases Option.map_eq_some'.mp h with ⟨j, hj, hv⟩
      rw [ih hj]
      simpa using hv

theorem colIdx_none_of_not_mem {cols : List String} {name : String}
    (h : name ∉ cols) : colIdx cols name = none := by
  induction cols with
  | nil => rfl
  | cons c cs ih =>
    rw [colIdx_cons, if_neg (fun e => h (by rw [← e]; exact List.mem_cons_self c cs)),
      ih (fun hm => h (List.mem_cons_of_mem c hm))]
    rfl

theorem colIdx_isSome_iff_mem {cols : List String} {name : String} :
    (colIdx cols name).isSome ↔ name ∈ cols := by
  induction cols with
  | nil => simp [colIdx, List.findIdx?_nil]
  | cons c cs ih =>
    rw [colIdx_cons]
    by_cases hc : c = name
    · simp [hc]
    · rw [if_neg hc]
      have hmapsome : (Option.map (fun x => x + 1) (colIdx cs name)).isSome =
          (colIdx cs name).isSome := by
        cases colIdx cs name <;> rfl
      rw [hmapsome, ih]
      constructor
      · intro hm; exact List.mem_cons_of_mem c hm
      · intro hm
        rcases List.mem_cons.mp hm with h0 | h0
        · exact absurd h0.symm hc
        · exact h0

theorem colIdx_append_self {cols : List String} {name : String}
    (h : name ∉ cols) : colIdx (cols ++ [name]) name = some cols.length := by
  induction cols with
  | nil => simp [colIdx, List.findIdx?_cons, List.findIdx?_nil]
  | cons c cs ih =>
    rw [List.cons_append, colIdx_cons,
      if_neg (fun e => h (by rw [← e]; exact List.mem_cons_self c cs)),
      ih (fun hm => h (List.mem_cons_of_mem c hm))]
    rfl

theorem colIdx_map_pre {f : String → String} {cols : List String} {name : String} {i : Nat}
    (h : colIdx cols name = some i) (hname : f name = name)
    (hpre : ∀ c ∈ cols.take i, f c ≠ name) :
    colIdx (cols.map f) name = some i := by
  induction cols generalizing i with
  | nil => cases h
  | cons c cs ih =>
    rw [colIdx_cons] at h
    rw [List.map_cons, colIdx_cons]
    by_cases hc : c = name
    · rw [if_pos hc] at h
      rw [if_pos (by rw [hc, hname])]
      exact h
    · rw [if_neg hc] at h
      rcases Option.map_eq_some'.mp h with ⟨j, hj, hv⟩
      have hfc : f c ≠ name := by
        apply hpre c
        rw [← hv, List.take_succ_cons]
        exact List.mem_cons_self c _
      rw [if_neg hfc, ih hj ?_]
      · simpa using hv
      · intro x hx
        apply hpre x
        rw [← hv, List.take_succ_cons]
        exact List.mem_cons_of_mem c hx

theorem string_append_ne_of_getLast {a suffix name : String}
    (h1 : suffix.data ≠ [])
    (h2 : suffix.data.getLast? ≠ name.data.getLast?) : a ++ suffix ≠ name := by
  intro he
  apply h2
  have hd : (a ++ suffix).data = name.data := congrArg String.data he
  rw [← hd]
  show suffix.data.getLast? = (a.data ++ suffix.data).getLast?
  exact (List.getLast?_append_of_ne_nil a.data h1).symm

theorem append_suffix_ne {a s b t : String}
    (h1 : s.data ≠ []) (h2 : t.data ≠ [])
    (h3 : s.data.getLast? ≠ t.data.getLast?) : a ++ s ≠ b ++ t := by
  intro he
  apply h3
  have hd : a.data ++ s.data = b.data ++ t.data := congrArg String.data he
  have ha := List.getLast?_append_of_ne_nil a.data h1
  have hb := List.getLast?_append_of_ne_nil b.data h2
  rw [← ha, ← hb, hd]

theorem string_eq_of_data_eq {a b : String} (h : a.data = b.data) : a = b := by
  cases a
  cases b
  exact congrArg String.mk (by simpa using h)

theorem append_right_cancel_str {a b t : String} (h : a ++ t = b ++ t) : a = b := by
  apply string_eq_of_data_eq
  have hd : a.data ++ t.data = b.data ++ t.data := congrArg String.data h
  exact List.append_cancel_right hd

theorem to_snake_append (a b : String) : to_snake (a ++ b) = to_snake a ++ to_snake b := by
  apply string_eq_of_data_eq
  show ((a.data ++ b.data).map snakeChar) = (a.data.map snakeChar) ++ (b.data.map snakeChar)
  exact List.map_append snakeChar a.data b.data

theorem safeCol_append_x (c : String) : SafeCol (c ++ "_x") := by
  constructor
  · rw [to_snake_append]
    show to_snake c ++ "_x" ≠ "num" ++ "_active_diabetes_meds"
    exact append_suffix_ne (by decide) (by decide) (by decide)
  · show c ++ "_x" ≠ "num" ++ "_active_diabetes_meds"
    exact append_suffix_ne (by decide) (by decide) (by decide)

theorem clean_ne_flag (x y : String) :
    x ++ "_clean" ≠ y ++ "_clean_active_flag" :=
  append_suffix_ne (by decide) (by decide) (by decide)

theorem exists_of_mem_zipWith {α β γ : Type} {f : α → β → γ} {l1 : List α} {l2 : List β} {c : γ}
    (h : c ∈ List.zipWith f l1 l2) : ∃ a ∈ l1, ∃ b ∈ l2, c = f a b := by
  induction l1 generalizing l2 with
  | nil => simp at h
  | cons a as ih =>
    cases l2 with
    | nil => simp at h
    | cons b bs =>
      rw [List.zipWith_cons_cons] at h
      rcases List.mem_cons.mp h with h0 | h0
      · exact ⟨a, List.mem_cons_self a as, b, List.mem_cons_self b bs, h0⟩
      · rcases ih h0 with ⟨a', ha', b', hb', he⟩
        exact ⟨a', List.mem_cons_of_mem a ha', b', List.mem_cons_of_mem b hb', he⟩

theorem aligned_setColCells {df : DF} {t : String} {cells : List Cell}
    (hal : Aligned df) (hlen : cells.length = df.rows.length) :
    Aligned (setColCells df t cells) := by
  unfold setColCells
  cases hc : colIdx df.cols t with
  | some j =>
    intro r' hr'
    rcases exists_of_mem_zipWith hr' with ⟨r, hrm, c, _, he⟩
    rw [he]
    show (r.set j c).length = df.cols.length
    rw [List.length_set]
    exact hal r hrm
  | none =>
    intro r' hr'
    rcases exists_of_mem_zipWith hr' with ⟨r, hrm, c, _, he⟩
    rw [he]
    show (r ++ [c]).length = (df.cols ++ [t]).length
    simp [hal r hrm]

theorem aligned_assignMapIf {df : DF} (s t : String) (g : Cell → Cell)
    (hal : Aligned df) : Aligned (assignMapIf df s t g) := by
  unfold assignMapIf
  cases colIdx df.cols s with
  | none => exact hal
  | some i => exact aligned_setColCells hal (by rw [List.length_map])

theorem aligned_assignMap {df u : DF} {s t : String} {g : Cell → Cell}
    (hal : Aligned df) (h : assignMap df s t g = .ok u) : Aligned u := by
  unfold assignMap at h
  cases hc : colIdx df.cols s with
  | none => rw [hc] at h; cases h
  | some i =>
    rw [hc] at h
    simp only [Except.ok.injEq] at h
    rw [← h]
    exact aligned_setColCells hal (by rw [List.length_map])

theorem aligned_assignMapIfE {df u : DF} {s t : String} {g : Cell → Except String Cell}
    (hal : Aligned df) (h : assignMapIfE df s t g = .ok u) : Aligned u := by
  unfold assignMapIfE at h
  cases hc : colIdx df.cols s with
  | none =>
    rw [hc] at h
    simp only [Except.ok.injEq] at h
    rw [← h]
    exact hal
  | some i =>
    rw [hc] at h
    rcases except_bind_ok.mp h with ⟨cells, hcells, h2⟩
    rw [except_pure_ok] at h2
    rw [← h2]
    exact aligned_setColCells hal (length_mapExcept hcells)

theorem cols_setColCells (df : DF) (t : String) (cells : List Cell) :
    ∃ ext, (setColCells df t cells).cols = df.cols ++ ext ∧ ∀ x ∈ ext, x = t := by
  unfold setColCells
  cases colIdx df.cols t with
  | some j => exact ⟨[], by simp, by simp⟩
  | none => exact ⟨[t], rfl, by simp⟩

theorem cols_assignMapIf_self (df : DF) (s : String) (g : Cell → Cell) :
    (assignMapIf df s s g).cols = df.cols := by
  unfold assignMapIf
  cases hc : colIdx df.cols s with
  | none => rfl
  | some i =>
    unfold setColCells
    rw [hc]

theorem cols_assignMapIfE_self {df u : DF} {s : String} {g : Cell → Except String Cell}
    (h : assignMapIfE df s s g = .ok u) : u.cols = df.cols := by
  unfold assignMapIfE at h
  cases hc : colIdx df.cols s with
  | none =>
    rw [hc] at h
    simp only [Except.ok.injEq] at h
    rw [← h]
  | some i =>
    rw [hc] at h
    rcases except_bind_ok.mp h with ⟨cells, hcells, h2⟩
    rw [except_pure_ok] at h2
    rw [← h2]
    unfold setColCells
    rw [hc]

theorem cols_assignMapIf (df : DF) (s t : String) (g : Cell → Cell) :
    ∃ ext, (assignMapIf df s t g).cols = df.cols ++ ext ∧ ∀ x ∈ ext, x = t := by
  unfold assignMapIf
  cases colIdx df.cols s with
  | none => exact ⟨[], by simp, by simp⟩
  | some i => exact cols_setColCells df t _

theorem rowsP_of_not_mem {df : DF} {name : String} {Q : Cell → Prop}
    (h : name ∉ df.cols) (hna : Q .na) : RowsP df name Q := by
  intro r _
  unfold getCell
  rw [colIdx_none_of_not_mem h]
  exact hna

theorem rowsP_setColCells_ne {df : DF} {name t : String} {Q : Cell → Prop} {cells : List Cell}
    (hal : Aligned df) (hP : RowsP df name Q) (hne : t ≠ name) (hna : Q .na) :
    RowsP (setColCells df t cells) name Q := by
  unfold setColCells
  cases hc : colIdx df.cols t with
  | some j =>
    intro r' hr'
    rcases exists_of_mem_zipWith hr' with ⟨r, hrm, c, _, he⟩
    rw [he]
    show Q (getCell df.cols (r.set j c) name)
    cases hn : colIdx df.cols name with
    | none => simp only [getCell, hn]; exact hna
    | some i =>
      have hij : j ≠ i := by
        intro hji
        apply hne
        have h1 := colIdx_getD hc
        have h2 := colIdx_getD hn
        rw [← h1, ← h2, hji]
      simp only [getCell, hn]
      rw [getD_set_ne hij]
      have hq := hP r hrm
      simp only [getCell, hn] at hq
      exact hq
  | none =>
    intro r' hr'
    rcases exists_of_mem_zipWith hr' with ⟨r, hrm, c, _, he⟩
    rw [he]
    show Q (getCell (df.cols ++ [t]) (r ++ [c]) name)
    cases hn : colIdx df.cols name with
    | none =>
      have hnm2 : name ∉ df.cols ++ [t] := by
        intro hm
        rcases List.mem_append.mp hm with h0 | h0
        · have hs := colIdx_isSome_iff_mem.mpr h0
          rw [hn] at hs
          cases hs
        · exact hne (List.mem_singleton.mp h0).symm
      simp only [getCell, colIdx_none_of_not_mem hnm2]
      exact hna
    | some i =>
      simp only [getCell, colIdx_append_left hn]
      rw [List.getD_append _ _ _ _ (by rw [hal r hrm]; exact colIdx_lt_length hn)]
      have hq := hP r hrm
      simp only [getCell, hn] at hq
      exact hq

theorem rowsP_setColCells_self {df : DF} {t : String} {Q : Cell → Prop} {cells : List Cell}
    (hal : Aligned df) (hQ : ∀ c ∈ cells, Q c) :
    RowsP (setColCells df t cells) t Q := by
  unfold setColCells
  cases hc : colIdx df.cols t with
  | some j =>
    intro r' hr'
    rcases exists_of_mem_zipWith hr' with ⟨r, hrm, c, hcm, he⟩
    rw [he]
    show Q (getCell df.cols (r.set j c) t)
    simp only [getCell, hc]
    rw [getD_set_self (by rw [hal r hrm]; exact colIdx_lt_length hc)]
    exact hQ c hcm
  | none =>
    intro r' hr'
    rcases exists_of_mem_zipWith hr' with ⟨r, hrm, c, hcm, he⟩
    rw [he]
    show Q (getCell (df.cols ++ [t]) (r ++ [c]) t)
    have hnm : t ∉ df.cols := by
      intro hm
      have hs := colIdx_isSome_iff_mem.mpr hm
      rw [hc] at hs
      cases hs
    simp only [getCell, colIdx_append_self hnm]
    rw [List.getD_append_right _ _ _ _ (le_of_eq (hal r hrm))]
    have hz : df.cols.length - r.length = 0 := by rw [hal r hrm]; omega
    rw [hz]
    exact hQ c hcm

theorem rowsP_assignMapIf_ne {df : DF} {name : String} {Q : Cell → Prop}
    (s t : String) (g : Cell → Cell)
    (hal : Aligned df) (hP : RowsP df name Q) (hne : t ≠ name) (hna : Q .na) :
    RowsP (assignMapIf df s t g) name Q := by
  unfold assignMapIf
  cases colIdx df.cols s with
  | none => exact hP
  | some i => exact rowsP_setColCells_ne hal hP hne hna

theorem tracked_setColCells {df : DF} {t : String} {P : Cell → Prop} {cells : List Cell}
    (htr : Tracked df P) (hne : t ≠ numActiveName) (hlen : cells.length = df.rows.length) :
    Tracked (setColCells df t cells) P := by
  obtain ⟨i, hi, hpre, hrows⟩ := htr
  unfold setColCells
  cases hc : colIdx df.cols t with
  | some j =>
    refine ⟨i, hi, hpre, ?_⟩
    intro r' hr'
    rcases exists_of_mem_zipWith hr' with ⟨r, hrm, c, _, he⟩
    obtain ⟨hlenr, hPr⟩ := hrows r hrm
    rw [he]
    refine ⟨?_, ?_⟩
    · show (r.set j c).length = df.cols.length
      rw [List.length_set]
      exact hlenr
    · show P ((r.set j c).getD i .na)
      have hij : j ≠ i := by
        intro hji
        apply hne
        have h1 := colIdx_getD hc
        have h2 := colIdx_getD hi
        rw [← h1, ← h2, hji]
      rw [getD_set_ne hij]
      exact hPr
  | none =>
    refine ⟨i, colIdx_append_left hi [t], ?_, ?_⟩
    · intro c hcm
      apply hpre
      rwa [List.take_append_of_le_length (le_of_lt (colIdx_lt_length hi))] at hcm
    · intro r' hr'
      rcases exists_of_mem_zipWith hr' with ⟨r, hrm, c, _, he⟩
      obtain ⟨hlenr, hPr⟩ := hrows r hrm
      rw [he]
      refine ⟨?_, ?_⟩
      · show (r ++ [c]).length = (df.cols ++ [t]).length
        simp [hlenr]
      · show P ((r ++ [c]).getD i .na)
        rw [List.getD_append _ _ _ _ (by rw [hlenr]; exact colIdx_lt_length hi)]
        exact hPr

theorem tracked_assignMapIf {df : DF} {P : Cell → Prop} (s t : String) (g : Cell → Cell)
    (htr : Tracked df P) (hne : t ≠ numActiveName) :
    Tracked (assignMapIf df s t g) P := by
  unfold assignMapIf
  cases colIdx df.cols s with
  | none => exact htr
  | some i => exact tracked_setColCells htr hne (by rw [List.length_map])

theorem tracked_assignMap {df u : DF} {P : Cell → Prop} {s t : String} {g : Cell → Cell}
    (htr : Tracked df P) (hne : t ≠ numActiveName)
    (h : assignMap df s t g = .ok u) : Tracked u P := by
  unfold assignMap at h
  cases hc : colIdx df.cols s with
  | none => rw [hc] at h; cases h
  | some i =>
    rw [hc] at h
    simp only [Except.ok.injEq] at h
    rw [← h]
    exact tracked_setColCells htr hne (by rw [List.length_map])

theorem tracked_assignMapIfE {df u : DF} {P : Cell → Prop} {s t : String}
    {g : Cell → Except String Cell}
    (htr : Tracked df P) (hne : t ≠ numActiveName)
    (h : assignMapIfE df s t g = .ok u) : Tracked u P := by
  unfold assignMapIfE at h
  cases hc : colIdx df.cols s with
  | none =>
    rw [hc] at h
    simp only [Except.ok.injEq] at h
    rw [← h]
    exact htr
  | some i =>
    rw [hc] at h
    rcases except_bind_ok.mp h with ⟨cells, hcells, h2⟩
    rw [except_pure_ok] at h2
    rw [← h2]
    exact tracked_setColCells htr hne (length_mapExcept hcells)

theorem length_dropKeyCells {cols : List String} {key : String} {rr : List Cell}
    (h : rr.length = cols.length) :
    (dropKeyCells cols key rr).length = (cols.filter (fun c => c ≠ key)).length := by
  unfold dropKeyCells
  induction cols generalizing rr with
  | nil =>
    cases rr with
    | nil => rfl
    | cons x xs => cases h
  | cons c cs ih =>
    cases rr with
    | nil => cases h
    | cons x xs =>
      simp only [List.length_cons] at h
      rw [List.zip_cons_cons, List.filterMap_cons, List.filter_cons]
      by_cases hk : c = key
      · rw [if_pos hk, if_neg (by simp [hk])]
        exact ih (by omega)
      · rw [if_neg hk, if_pos (by simp [hk])]
        simp only [List.length_cons]
        rw [ih (by omega)]

theorem tracked_merge {l r : DF} {key : String} {m : DF} {P : Cell → Prop}
    (htr : Tracked l P) (halr : Aligned r) (hnr : numActiveName ∉ r.cols)
    (hok : merge l r key = .ok m) : Tracked m P := by
  obtain ⟨i, hi, hpre, hrows⟩ := htr
  unfold merge at hok
  cases hli : colIdx l.cols key with
  | none => rw [hli] at hok; cases hok
  | some li =>
    cases hri : colIdx r.cols key with
    | none => rw [hli, hri] at hok; cases hok
    | some ri =>
      rw [hli, hri] at hok
      simp only [Except.ok.injEq] at hok
      rw [← hok]
      have hrennm : (if numActiveName ≠ key ∧ r.cols.contains numActiveName = true then
          numActiveName ++ "_x" else numActiveName) = numActiveName := by
        rw [if_neg ?_]
        intro hcond
        exact hnr (List.mem_of_elem_eq_true hcond.2)
      have hpre2 : ∀ c ∈ l.cols.take i,
          (if c ≠ key ∧ r.cols.contains c = true then c ++ "_x" else c) ≠ numActiveName := by
        intro c hcm
        have hsafe := hpre c hcm
        by_cases hover : c ≠ key ∧ r.cols.contains c = true
        · rw [if_pos hover]
          exact (safeCol_append_x c).2
        · rw [if_neg hover]
          exact hsafe.2
      refine ⟨i, ?_, ?_, ?_⟩
      · exact colIdx_append_left
          (@colIdx_map_pre
            (fun c => if c ≠ key ∧ r.cols.contains c = true then c ++ "_x" else c)
            l.cols numActiveName i hi hrennm hpre2) _
      · intro c hcm
        rw [List.take_append_of_le_length
          (by rw [List.length_map]; exact le_of_lt (colIdx_lt_length hi))] at hcm
        rw [← List.map_take] at hcm
        rcases List.mem_map.mp hcm with ⟨c0, hc0, he0⟩
        have hsafe0 := hpre c0 hc0
        rw [← he0]
        by_cases hover : c0 ≠ key ∧ r.cols.contains c0 = true
        · rw [if_pos hover]
          exact safeCol_append_x c0
        · rw [if_neg hover]
          exact hsafe0
      · intro r' hr'
        rcases List.exists_of_mem_flatMap hr' with ⟨lrow, hlm, hin⟩
        obtain ⟨hlenr, hPr⟩ := hrows lrow hlm
        have hcolslen : (l.cols.map (fun c =>
            if c ≠ key ∧ r.cols.contains c = true then c ++ "_x" else c) ++
            (r.cols.filter (fun c => c ≠ key)).map
              (fun c => if l.cols.contains c = true then c ++ "_y" else c)).length =
            l.cols.length + (r.cols.filter (fun c => c ≠ key)).length := by
          simp
        by_cases he : (r.rows.filter
            (fun rr => rr.getD ri .na = lrow.getD li .na)).isEmpty
        · rw [if_pos he] at hin
          rcases List.mem_singleton.mp hin with rfl
          refine ⟨?_, ?_⟩
          · rw [hcolslen]
            simp [hlenr]
          · rw [List.getD_append _ _ _ _ (by rw [hlenr]; exact colIdx_lt_length hi)]
            exact hPr
        · rw [if_neg he] at hin
          rcases List.mem_map.mp hin with ⟨rr, hrrm, he2⟩
          have hrrmem : rr ∈ r.rows := List.mem_of_mem_filter hrrm
          have hrrlen := halr rr hrrmem
          rw [← he2]
          refine ⟨?_, ?_⟩
          · rw [hcolslen, List.length_append, hlenr, length_dropKeyCells hrrlen]
          · rw [List.getD_append _ _ _ _ (by rw [hlenr]; exact colIdx_lt_length hi)]
            exact hPr

theorem tracked_snake_final {df : DF} {P : Cell → Prop} (htr : Tracked df P) :
    ∀ r ∈ (snakeCols df).rows, P (getCell (snakeCols df).cols r numActiveName) := by
  obtain ⟨i, hi, hpre, hrows⟩ := htr
  intro r hr
  show P (getCell (df.cols.map to_snake) r numActiveName)
  unfold getCell
  rw [colIdx_map_pre hi (by decide) (fun c hcm => (hpre c hcm).1)]
  exact (hrows r hr).2

theorem prepLookup_keys {t u : DF} {id desc : String}
    (hid : id ≠ "description") (hdesc : desc ≠ id)
    (hok : prepLookup t id desc = .ok u) :
    ∃ ri, colIdx u.cols id = some ri ∧
      u.rows.map (fun rr => rr.getD ri .na) = lookupKeys t id := by
  unfold prepLookup at hok
  rcases except_bind_ok.mp hok with ⟨t1, h1, h2⟩
  rw [except_pure_ok] at h2
  unfold assignMap at h1
  cases hc : colIdx t.cols id with
  | none => rw [hc] at h1; cases h1
  | some i =>
    rw [hc] at h1
    simp only [Except.ok.injEq] at h1
    -- the coerced table: same columns, the id column overwritten cellwise
    have ht1cols : t1.cols = t.cols := by
      rw [← h1]; unfold setColCells; rw [hc]
    have ht1rows : t1.rows = List.zipWith (fun r c => r.set i c) t.rows
        (t.rows.map (fun r => astype_string (r.getD i .na))) := by
      rw [← h1]; unfold setColCells; rw [hc]
    have hkeys : t1.rows.map (fun rr => rr.getD i .na) = lookupKeys t id := by
      rw [ht1rows]
      have hzip : List.zipWith (fun r c => r.set i c) t.rows
          (t.rows.map (fun r => astype_string (r.getD i .na))) =
          t.rows.map (fun r => r.set i (astype_string (r.getD i .na))) := by
        rw [List.zipWith_map_right, List.zipWith_same]
      rw [hzip, List.map_map]
      unfold lookupKeys
      apply List.map_congr_left
      intro r _
      show (r.set i (astype_string (r.getD i .na))).getD i .na =
        astype_string (getCell t.cols r id)
      simp only [getCell, hc]
      by_cases hlen : i < r.length
      · rw [getD_set_self hlen]
      · rw [List.set_eq_of_length_le (by omega)]
        rw [List.getD_eq_default _ _ (by omega)]
        rfl
    have hidx1 : colIdx t1.cols id = some i := by rw [ht1cols]; exact hc
    by_cases hd : (colIdx t1.cols "description").isSome
    · rw [if_pos hd] at h2
      refine ⟨i, ?_, ?_⟩
      · rw [← h2]
        show colIdx (t1.cols.map fun c => if c = "description" then desc else c) id = some i
        rw [colIdx_map_iff ?_ t1.cols, hidx1]
        intro c
        constructor
        · intro he
          by_cases hcd : c = "description"
          · rw [if_pos hcd] at he; exact absurd he hdesc
          · rwa [if_neg hcd] at he
        · intro he
          subst he
          rw [if_neg hid]
      · rw [← h2]
        exact hkeys
    · rw [if_neg hd] at h2
      exact ⟨i, by rw [← h2]; exact hidx1, by rw [← h2]; exact hkeys⟩

theorem flagCell_med_active_flag (c : Cell) : FlagCell (med_active_flag c) := by
  cases c with
  | na => left; rfl
  | int n => left; rfl
  | str s =>
    show FlagCell (if s = "steady" ∨ s = "increased" ∨ s = "decreased" then Cell.int 1
      else if s = "no" then Cell.int 0 else Cell.na)
    unfold FlagCell
    split_ifs
    · right; right; rfl
    · right; left; rfl
    · left; rfl

theorem rowActiveCount_bound {cells : List Cell} (h : ∀ c ∈ cells, FlagCell c) :
    0 ≤ rowActiveCount cells ∧ rowActiveCount cells ≤ (cells.length : Int) := by
  induction cells with
  | nil => simp [rowActiveCount]
  | cons c cs ih =>
    have hc := h c (List.mem_cons_self c cs)
    have ihs := ih (fun x hx => h x (List.mem_cons_of_mem c hx))
    unfold rowActiveCount at ihs ⊢
    rw [List.map_cons, List.sum_cons]
    have hval : 0 ≤ (match c with | Cell.int n => n | _ => 0) ∧
        (match c with | Cell.int n => n | _ => 0) ≤ 1 := by
      rcases hc with h0 | h0 | h0 <;> rw [h0] <;> exact ⟨by norm_num, by norm_num⟩
    simp only [List.length_cons]
    push_cast
    omega

theorem aligned_medsLoopStep {d : DF} (c : String) (hal : Aligned d) :
    Aligned (medsLoopStep d c) :=
  aligned_assignMapIf _ _ _ (aligned_assignMapIf _ _ _ hal)

theorem aligned_meds_loop : ∀ (cs : List String) (d : DF), Aligned d →
    Aligned (cs.foldl medsLoopStep d) := by
  intro cs
  induction cs with
  | nil => intro d h; exact h
  | cons c cs ih =>
    intro d h
    rw [List.foldl_cons]
    exact ih _ (aligned_medsLoopStep c h)

theorem mem_target_setColCells (df : DF) (t : String) (cells : List Cell) :
    t ∈ (setColCells df t cells).cols := by
  unfold setColCells
  cases hc : colIdx df.cols t with
  | some j =>
    show t ∈ df.cols
    apply colIdx_isSome_iff_mem.mp
    rw [hc]
    rfl
  | none =>
    show t ∈ df.cols ++ [t]
    exact List.mem_append_right _ (List.mem_singleton.mpr rfl)

theorem cols_medsLoopStep (d : DF) (c : String) :
    ∃ e, (medsLoopStep d c).cols = d.cols ++ e ∧
      ∀ x ∈ e, x = c ++ "_clean" ∨ x = c ++ "_clean_active_flag" := by
  unfold medsLoopStep
  rcases cols_assignMapIf d c (c ++ "_clean") standardize_med_status with ⟨e1, he1, hm1⟩
  rcases cols_assignMapIf (assignMapIf d c (c ++ "_clean") standardize_med_status)
    (c ++ "_clean") (c ++ "_clean_active_flag") med_active_flag with ⟨e2, he2, hm2⟩
  refine ⟨e1 ++ e2, ?_, ?_⟩
  · rw [he2, he1, List.append_assoc]
  · intro x hx
    rcases List.mem_append.mp hx with h0 | h0
    · left; exact hm1 x h0
    · right; exact hm2 x h0

theorem meds_loop_cols : ∀ (cs : List String) (d : DF),
    ∃ ext, (cs.foldl medsLoopStep d).cols = d.cols ++ ext ∧
      ∀ x ∈ ext, ∃ c ∈ cs, x = c ++ "_clean" ∨ x = c ++ "_clean_active_flag" := by
  intro cs
  induction cs with
  | nil => intro d; exact ⟨[], by simp, by simp⟩
  | cons c cs ih =>
    intro d
    rw [List.foldl_cons]
    rcases cols_medsLoopStep d c with ⟨e0, he0, hm0⟩
    rcases ih (medsLoopStep d c) with ⟨ext, hext, hmext⟩
    refine ⟨e0 ++ ext, ?_, ?_⟩
    · rw [hext, he0, List.append_assoc]
    · intro x hx
      rcases List.mem_append.mp hx with h0 | h0
      · exact ⟨c, List.mem_cons_self c cs, hm0 x h0⟩
      · rcases hmext x h0 with ⟨c', hc', hor⟩
        exact ⟨c', List.mem_cons_of_mem c hc', hor⟩

theorem rowsP_medsLoop_pres {name : String} {Q : Cell → Prop} (hna : Q .na) :
    ∀ (cs : List String) (d : DF), Aligned d → RowsP d name Q →
      (∀ c ∈ cs, c ++ "_clean" ≠ name ∧ c ++ "_clean_active_flag" ≠ name) →
      RowsP (cs.foldl medsLoopStep d) name Q := by
  intro cs
  induction cs with
  | nil => intro d _ hP _; exact hP
  | cons c cs ih =>
    intro d hal hP hne
    rw [List.foldl_cons]
    apply ih _ (aligned_medsLoopStep c hal)
    · unfold medsLoopStep
      apply rowsP_assignMapIf_ne _ _ _ (aligned_assignMapIf _ _ _ hal)
        (rowsP_assignMapIf_ne _ _ _ hal hP (hne c (List.mem_cons_self c cs)).1 hna)
        (hne c (List.mem_cons_self c cs)).2 hna
    · intro c' hc'
      exact hne c' (List.mem_cons_of_mem c hc')

theorem mem_cols_medsLoopStep {d : DF} {x : String} (c : String) (hx : x ∈ d.cols) :
    x ∈ (medsLoopStep d c).cols := by
  rcases cols_medsLoopStep d c with ⟨e, he, _⟩
  rw [he]
  exact List.mem_append_left e hx

theorem meds_loop_flags : ∀ (cs : List String), cs.Nodup →
    ∀ d : DF, Aligned d → (∀ c ∈ cs, c ∈ d.cols) →
    ∀ c ∈ cs, RowsP (cs.foldl medsLoopStep d) (c ++ "_clean_active_flag") FlagCell := by
  intro cs
  induction cs with
  | nil => intro _ d _ _ c hc; cases hc
  | cons c0 cs ih =>
    intro hnd d hald hmem c hc
    rw [List.foldl_cons]
    rw [List.nodup_cons] at hnd
    rcases List.mem_cons.mp hc with rfl | hc2
    · -- the head medication: its flag column is set by this very step and is
      -- untouched by the remaining iterations
      have hflag : RowsP (medsLoopStep d c) (c ++ "_clean_active_flag") FlagCell := by
        unfold medsLoopStep
        have hcmem : c ∈ d.cols := hmem c (List.mem_cons_self c cs)
        have hsome : (colIdx d.cols c).isSome := colIdx_isSome_iff_mem.mpr hcmem
        -- the first assignment takes the present branch, so the clean column
        -- exists for the second assignment to read
        unfold assignMapIf
        cases hc1 : colIdx d.cols c with
        | none => rw [hc1] at hsome; cases hsome
        | some i =>
          have hcleanmem : (c ++ "_clean") ∈
              (setColCells d (c ++ "_clean")
                (d.rows.map (fun r => standardize_med_status (r.getD i .na)))).cols :=
            mem_target_setColCells _ _ _
          cases hc2s : colIdx (setColCells d (c ++ "_clean")
              (d.rows.map (fun r => standardize_med_status (r.getD i .na)))).cols
              (c ++ "_clean") with
          | none =>
            have hs := colIdx_isSome_iff_mem.mpr hcleanmem
            rw [hc2s] at hs
            cases hs
          | some j =>
            apply rowsP_setColCells_self
            · exact aligned_setColCells hald (by rw [List.length_map])
            · intro x hxm
              rcases List.mem_map.mp hxm with ⟨r, _, he⟩
              rw [← he]
              exact flagCell_med_active_flag _
      have hna : FlagCell Cell.na := Or.inl rfl
      apply rowsP_medsLoop_pres hna cs _ (aligned_medsLoopStep c hald) hflag
      intro c' hc'
      refine ⟨clean_ne_flag c' c, ?_⟩
      intro he
      exact hnd.1 (by rw [append_right_cancel_str he] at hc'; exact hc')
    · exact ih hnd.2 (medsLoopStep d c0) (aligned_medsLoopStep c0 hald)
        (fun x hx => mem_cols_medsLoopStep c0 (hmem x (List.mem_cons_of_mem c0 hx)))
        c hc2

theorem tracked_setColRowFun_establish {df : DF} {f : List Cell → Cell} {P : Cell → Prop}
    (hal : Aligned df) (hnm : numActiveName ∉ df.cols)
    (hsafeall : ∀ c ∈ df.cols, SafeCol c)
    (hf : ∀ r ∈ df.rows, P (f r)) :
    Tracked (setColRowFun df numActiveName f) P := by
  unfold setColRowFun setColCells
  cases hc : colIdx df.cols numActiveName with
  | some j =>
    have hs : numActiveName ∈ df.cols := colIdx_isSome_iff_mem.mp (by rw [hc]; rfl)
    exact absurd hs hnm
  | none =>
    refine ⟨df.cols.length, colIdx_append_self hnm, ?_, ?_⟩
    · intro c hcm
      rw [List.take_append_of_le_length (le_refl _), List.take_length] at hcm
      exact hsafeall c hcm
    · have hrw : List.zipWith (fun r c => r ++ [c]) df.rows (df.rows.map f) =
          df.rows.map (fun r => r ++ [f r]) := by
        rw [List.zipWith_map_right, List.zipWith_same]
      rw [hrw]
      intro r' hr'
      rcases List.mem_map.mp hr' with ⟨r, hrm, he⟩
      rw [← he]
      refine ⟨by simp [hal r hrm], ?_⟩
      rw [List.getD_append_right _ _ _ _ (le_of_eq (hal r hrm))]
      have hz : df.cols.length - r.length = 0 := by rw [hal r hrm]; omega
      rw [hz]
      exact hf r hrm

theorem cols_numericStage {df u : DF} (h : numericStage df = .ok u) : u.cols = df.cols := by
  unfold numericStage at h
  have gen : ∀ (cs : List String) (d v : DF),
      cs.foldlM (fun d c => assignMapIfE d c c to_numeric_Int64) d = .ok v →
      v.cols = d.cols := by
    intro cs
    induction cs with
    | nil =>
      intro d v h0
      rw [List.foldlM_nil, except_pure_ok] at h0
      rw [← h0]
    | cons c cs ih =>
      intro d v h0
      rw [List.foldlM_cons] at h0
      rcases except_bind_ok.mp h0 with ⟨d1, h1, h2⟩
      rw [ih d1 v h2, cols_assignMapIfE_self h1]
  exact gen numeric_cols df u h

theorem aligned_numericStage {df u : DF} (hal : Aligned df) (h : numericStage df = .ok u) :
    Aligned u := by
  unfold numericStage at h
  have gen : ∀ (cs : List String) (d v : DF), Aligned d →
      cs.foldlM (fun d c => assignMapIfE d c c to_numeric_Int64) d = .ok v →
      Aligned v := by
    intro cs
    induction cs with
    | nil =>
      intro d v hald h0
      rw [List.foldlM_nil, except_pure_ok] at h0
      rw [← h0]
      exact hald
    | cons c cs ih =>
      intro d v hald h0
      rw [List.foldlM_cons] at h0
      rcases except_bind_ok.mp h0 with ⟨d1, h1, h2⟩
      exact ih d1 v (aligned_assignMapIfE hald h1) h2
  exact gen numeric_cols df u hal h

theorem cols_foldl_assign_self (g : Cell → Cell) :
    ∀ (cs : List String) (df : DF),
      (cs.foldl (fun d c => assignMapIf d c c g) df).cols = df.cols := by
  intro cs
  induction cs with
  | nil => intro df; rfl
  | cons c cs ih =>
    intro df
    rw [List.foldl_cons, ih, cols_assignMapIf_self]

theorem aligned_foldl_assign (tf : String → String) (g : Cell → Cell) :
    ∀ (cs : List String) (df : DF), Aligned df →
      Aligned (cs.foldl (fun d c => assignMapIf d c (tf c) g) df) := by
  intro cs
  induction cs with
  | nil => intro df h; exact h
  | cons c cs ih =>
    intro df h
    rw [List.foldl_cons]
    exact ih _ (aligned_assignMapIf _ _ _ h)

theorem cols_idStage (df : DF) : (idStage df).cols = df.cols :=
  cols_foldl_assign_self astype_string id_cols df

theorem aligned_idStage {df : DF} (hal : Aligned df) : Aligned (idStage df) :=
  aligned_foldl_assign (fun c => c) astype_string id_cols df hal

theorem cols_foldl_assign_tf (tf : String → String) (g : Cell → Cell) :
    ∀ (cs : List String) (df : DF),
      ∃ ext, (cs.foldl (fun d c => assignMapIf d c (tf c) g) df).cols = df.cols ++ ext ∧
        ∀ x ∈ ext, ∃ c ∈ cs, x = tf c := by
  intro cs
  induction cs with
  | nil => intro df; exact ⟨[], by simp, by simp⟩
  | cons c cs ih =>
    intro df
    rw [List.foldl_cons]
    rcases cols_assignMapIf df c (tf c) g with ⟨e0, he0, hm0⟩
    rcases ih (assignMapIf df c (tf c) g) with ⟨ext, hext, hmext⟩
    refine ⟨e0 ++ ext, ?_, ?_⟩
    · rw [hext, he0, List.append_assoc]
    · intro x hx
      rcases List.mem_append.mp hx with h0 | h0
      · exact ⟨c, List.mem_cons_self c cs, hm0 x h0⟩
      · rcases hmext x h0 with ⟨c', hc', he'⟩
        exact ⟨c', List.mem_cons_of_mem c hc', he'⟩

theorem cols_assignMap {df u : DF} {s t : String} {g : Cell → Cell}
    (h : assignMap df s t g = .ok u) :
    ∃ ext, u.cols = df.cols ++ ext ∧ ∀ x ∈ ext, x = t := by
  unfold assignMap at h
  cases hc : colIdx df.cols s with
  | none => rw [hc] at h; cases h
  | some i =>
    rw [hc] at h
    simp only [Except.ok.injEq] at h
    rw [← h]
    exact cols_setColCells df t _

theorem cols_diagStage {df u : DF} (h : diagStage df = .ok u) :
    ∃ ext, u.cols = df.cols ++ ext ∧ ∀ x ∈ ext, x ∈ diagCleanNames := by
  unfold diagStage at h
  rcases cols_foldl_assign_tf (fun c => c ++ "_clean") clean_diag_code diag_cols df
    with ⟨e1, he1, hm1⟩
  rcases cols_assignMap h with ⟨e2, he2, hm2⟩
  refine ⟨e1 ++ e2, ?_, ?_⟩
  · rw [he2, he1, List.append_assoc]
  · intro x hx
    rcases List.mem_append.mp hx with h0 | h0
    · rcases hm1 x h0 with ⟨c, hc, he⟩
      unfold diag_cols at hc
      simp only [List.mem_cons, List.not_mem_nil, or_false] at hc
      rw [he]
      rcases hc with h1 | h1 | h1
      · rw [h1]; decide
      · rw [h1]; decide
      · rw [h1]; decide
    · rw [hm2 x h0]
      decide

theorem aligned_diagStage {df u : DF} (hal : Aligned df) (h : diagStage df = .ok u) :
    Aligned u := by
  unfold diagStage at h
  exact aligned_assignMap
    (aligned_foldl_assign (fun c => c ++ "_clean") clean_diag_code diag_cols df hal) h

theorem aligned_renameCol {df : DF} (old new : String) (hal : Aligned df) :
    Aligned (renameCol df old new) := by
  intro r hr
  show r.length = (df.cols.map _).length
  rw [List.length_map]
  exact hal r hr

theorem aligned_prepLookup {t u : DF} {id desc : String}
    (hal : Aligned t) (h : prepLookup t id desc = .ok u) : Aligned u := by
  unfold prepLookup at h
  rcases except_bind_ok.mp h with ⟨t1, h1, h2⟩
  rw [except_pure_ok] at h2
  have hal1 : Aligned t1 := aligned_assignMap hal h1
  rw [← h2]
  by_cases hd : (colIdx t1.cols "description").isSome
  · rw [if_pos hd]
    exact aligned_renameCol _ _ hal1
  · rw [if_neg hd]
    exact hal1

theorem prepLookup_not_mem {t u : DF} {id desc : String}
    (h : prepLookup t id desc = .ok u) (hn : numActiveName ∉ t.cols)
    (hd : desc ≠ numActiveName) : numActiveName ∉ u.cols := by
  unfold prepLookup at h
  rcases except_bind_ok.mp h with ⟨t1, h1, h2⟩
  rw [except_pure_ok] at h2
  have ht1 : t1.cols = t.cols := by
    unfold assignMap at h1
    cases hc : colIdx t.cols id with
    | none => rw [hc] at h1; cases h1
    | some i =>
      rw [hc] at h1
      simp only [Except.ok.injEq] at h1
      rw [← h1]
      unfold setColCells
      rw [hc]
  rw [← h2]
  by_cases hdp : (colIdx t1.cols "description").isSome
  · rw [if_pos hdp]
    intro hm
    rcases List.mem_map.mp hm with ⟨c, hcm, he⟩
    by_cases hcd : c = "description"
    · rw [if_pos hcd] at he
      exact hd he
    · rw [if_neg hcd] at he
      rw [ht1] at hcm
      exact hn (he ▸ hcm)
  · rw [if_neg hdp]
    rw [ht1]
    exact hn

theorem tracked_foldl_assign {P : Cell → Prop} (tf : String → String) (g : Cell → Cell) :
    ∀ (cs : List String) (df : DF), Tracked df P → (∀ c ∈ cs, tf c ≠ numActiveName) →
      Tracked (cs.foldl (fun d c => assignMapIf d c (tf c) g) df) P := by
  intro cs
  induction cs with
  | nil => intro df h _; exact h
  | cons c cs ih =>
    intro df h hne
    rw [List.foldl_cons]
    exact ih _ (tracked_assignMapIf _ _ _ h (hne c (List.mem_cons_self c cs)))
      (fun x hx => hne x (List.mem_cons_of_mem c hx))

theorem tracked_labStage {df : DF} {P : Cell → Prop} (h : Tracked df P) :
    Tracked (labStage df) P :=
  tracked_foldl_assign (fun c => c ++ "_clean") clean_lab lab_cols df h (by decide)

theorem tracked_encodeStage {df u : DF} {P : Cell → Prop}
    (htr : Tracked df P) (h : encodeStage df = .ok u) : Tracked u P := by
  unfold encodeStage at h
  rcases except_bind_ok.mp h with ⟨d1, h1, h⟩
  rcases except_bind_ok.mp h with ⟨d2, h2, h⟩
  rcases except_bind_ok.mp h with ⟨d3, h3, h⟩
  rcases except_bind_ok.mp h with ⟨d4, h4, h⟩
  rcases except_bind_ok.mp h with ⟨d5, h5, h⟩
  exact tracked_assignMapIfE
    (tracked_assignMapIfE
      (tracked_assignMap
        (tracked_assignMap
          (tracked_assignMap
            (tracked_assignMap htr (by decide) h1)
            (by decide) h2)
          (by decide) h3)
        (by decide) h4)
      (by decide) h5)
    (by decide) h

/-! ## The claims -/

/-- C7: the age-bucket parser maps `"[60-70)"` to `(60, 70)` and `"[0-10)"`
to `(0, 10)`, maps the malformed inputs `"70"`, `"[70)"` and `"[a-b)"` to
`(missing, missing)`, and a non-missing value parses successfully exactly
when it matches the bucket grammar `[low-high)` with integer low and high. -/
theorem claim_C7_age_bucket :
    parse_age_range (.str "[60-70)") = (some 60, some 70)
    ∧ parse_age_range (.str "[0-10)") = (some 0, some 10)
    ∧ parse_age_range (.str "70") = (none, none)
    ∧ parse_age_range (.str "[70)") = (none, none)
    ∧ parse_age_range (.str "[a-b)") = (none, none)
    ∧ ∀ s : String, parse_age_range (.str s) ≠ (none, none) ↔ bucketGrammar s = true := by
  refine ⟨by decide, by decide, by decide, by decide, by decide, ?_⟩
  intro s
  show parseAgeCore (stripChars s.data) ≠ (none, none) ↔
    bucketGrammarCore (stripChars s.data) = true
  generalize stripChars s.data = t
  unfold parseAgeCore bucketGrammarCore
  by_cases hg : t.head? = some '[' ∧ t.getLast? = some ')' ∧ t.contains '-'
  · rw [if_pos hg]
    cases hs : splitOnChar '-' ((t.drop 1).dropLast) with
    | nil => exact absurd hs (splitOnChar_ne_nil _ _)
    | cons a ts =>
      cases ts with
      | nil => simp [hg.1, hg.2.1]
      | cons b ts2 =>
        cases ts2 with
        | nil =>
          cases ha : pyInt a with
          | none => simp [hg.1, hg.2.1, ha]
          | some low =>
            cases hb : pyInt b with
            | none => simp [hg.1, hg.2.1, ha, hb]
            | some high => simp [hg.1, hg.2.1, ha, hb]
        | cons x ts3 => simp [hg.1, hg.2.1]
  · rw [if_neg hg]
    simp only [ne_eq, not_true_eq_false, false_iff, Bool.and_eq_true, decide_eq_true_eq]
    intro hc
    rcases hc with ⟨⟨h1, h2⟩, h3⟩
    -- the grammar holds, so the parser's guard must hold too: derive the
    -- missing "-" containment from the two-piece split
    apply hg
    refine ⟨h1, h2, ?_⟩
    cases hs : splitOnChar '-' ((t.drop 1).dropLast) with
    | nil => exact absurd hs (splitOnChar_ne_nil _ _)
    | cons a ts =>
      rw [hs] at h3
      cases ts with
      | nil => simp at h3
      | cons b ts2 =>
        cases ts2 with
        | nil =>
          have hlen := length_splitOnChar '-' ((t.drop 1).dropLast)
          rw [hs] at hlen
          simp only [List.length_cons, List.length_nil] at hlen
          have hmem : '-' ∈ (t.drop 1).dropLast := by
            have hpos : 0 < ((t.drop 1).dropLast).count '-' := by omega
            exact List.count_pos_iff.mp hpos
          have hmem2 : '-' ∈ t :=
            List.drop_subset 1 t ((List.dropLast_sublist _).subset hmem)
          exact List.elem_eq_true_of_mem hmem2
        | cons x ts3 => simp at h3

theorem parseAgeCore_low_nonneg (t : List Char) (low high : Int)
    (h : parseAgeCore t = (some low, some high)) : 0 ≤ low := by
  unfold parseAgeCore at h
  by_cases hg : t.head? = some '[' ∧ t.getLast? = some ')' ∧ t.contains '-'
  · rw [if_pos hg] at h
    cases hs : splitOnChar '-' ((t.drop 1).dropLast) with
    | nil => exact absurd hs (splitOnChar_ne_nil _ _)
    | cons a ts =>
      rw [hs] at h
      cases ts with
      | nil => simp at h
      | cons b ts2 =>
        cases ts2 with
        | nil =>
          replace h : (match pyInt a, pyInt b with
            | some low, some high => ((some low : Option Int), (some high : Option Int))
            | _, _ => (none, none)) = (some low, some high) := h
          cases ha : pyInt a with
          | none => rw [ha] at h; simp at h
          | some lo =>
            cases hb : pyInt b with
            | none => rw [ha, hb] at h; simp at h
            | some hi =>
              rw [ha, hb] at h
              simp only [Prod.mk.injEq, Option.some.injEq] at h
              have hnm : '-' ∉ a :=
                not_mem_of_mem_splitOnChar '-' _ a (hs ▸ List.mem_cons_self a [b])
              have := pyInt_nonneg hnm ha
              rw [← h.1]
              exact this
        | cons x ts3 => simp at h
  · rw [if_neg hg] at h
    simp at h

/-- C9: whenever the age parser returns non-missing bounds the low bound is
non-negative (a pre-sign minus would have made the inner `split("-")` yield
more than two pieces), so `age_out_of_0_120` counts exactly the parsed
buckets whose high bound exceeds 120. -/
theorem claim_C9_age_audit_low_nonneg :
    (∀ (c : Cell) (low high : Int),
        parse_age_range c = (some low, some high) → 0 ≤ low)
    ∧ ∀ ages : List Cell,
        age_out_of_0_120 ages = (parsedAgePairs ages).countP (fun p => decide (120 < p.2)) := by
  have main : ∀ (c : Cell) (low high : Int),
      parse_age_range c = (some low, some high) → 0 ≤ low := by
    intro c low high h
    cases c with
    | na => simp [parse_age_range] at h
    | str s => exact parseAgeCore_low_nonneg _ low high h
    | int n => exact parseAgeCore_low_nonneg _ low high h
  refine ⟨main, ?_⟩
  intro ages
  unfold age_out_of_0_120
  apply List.countP_congr
  intro p hp
  have hlow : 0 ≤ p.1 := by
    unfold parsedAgePairs at hp
    rcases List.mem_filterMap.mp hp with ⟨c, _, hc⟩
    rcases hparse : parse_age_range c with ⟨o1, o2⟩
    rw [hparse] at hc
    cases o1 with
    | none => cases o2 <;> simp at hc
    | some low =>
      cases o2 with
      | none => simp at hc
      | some high =>
        simp at hc
        have := main c low high hparse
        rw [← hc]
        exact this
  simp only [decide_eq_true_eq]
  constructor
  · intro hor
    rcases hor with h0 | h0
    · omega
    · exact h0
  · intro h0
    right
    exact h0

/-- C1: whenever all three lookup tables have unique keys in their id
columns, the cleaned row set the Transformation Engine produces has exactly
as many rows as the raw row set (every per-field rule is a rowwise map and
each left join matches at most one lookup row). -/
theorem claim_C1_row_count_preserved (raw t1 t2 t3 out : DF)
    (h1 : UniqueKeys t1 "admission_type_id")
    (h2 : UniqueKeys t2 "discharge_disposition_id")
    (h3 : UniqueKeys t3 "admission_source_id")
    (hok : transform_encounters raw t1 t2 t3 = .ok out) :
    out.rows.length = raw.rows.length := by
  unfold transform_encounters at hok
  rcases except_bind_ok.mp hok with ⟨d1, hd1, hok⟩
  rcases except_bind_ok.mp hok with ⟨d2, hd2, hok⟩
  rcases except_bind_ok.mp hok with ⟨d3, hd3, hok⟩
  rcases except_bind_ok.mp hok with ⟨u1, hu1, hok⟩
  rcases except_bind_ok.mp hok with ⟨u2, hu2, hok⟩
  rcases except_bind_ok.mp hok with ⟨u3, hu3, hok⟩
  rcases except_bind_ok.mp hok with ⟨d4, hd4, hok⟩
  rcases except_bind_ok.mp hok with ⟨d5, hd5, hok⟩
  rcases except_bind_ok.mp hok with ⟨d6, hd6, hok⟩
  rw [except_pure_ok] at hok
  obtain ⟨r1, hr1, hkeys1⟩ := prepLookup_keys (by decide) (by decide) hu1
  obtain ⟨r2, hr2, hkeys2⟩ := prepLookup_keys (by decide) (by decide) hu2
  obtain ⟨r3, hr3, hkeys3⟩ := prepLookup_keys (by decide) (by decide) hu3
  have hn1 : (u1.rows.map (fun rr => rr.getD r1 .na)).Nodup := by rw [hkeys1]; exact h1
  have hn2 : (u2.rows.map (fun rr => rr.getD r2 .na)).Nodup := by rw [hkeys2]; exact h2
  have hn3 : (u3.rows.map (fun rr => rr.getD r3 .na)).Nodup := by rw [hkeys3]; exact h3
  rw [← hok]
  show d6.rows.length = raw.rows.length
  rw [merge_length hr3 hn3 hd6, merge_length hr2 hn2 hd5, merge_length hr1 hn1 hd4,
    length_labStage, length_encodeStage hd3, length_medsStep, length_diagStage hd2,
    length_idStage, length_numericStage hd1]

/-- C1 witness: the row-count invariant instantiated at a concrete one-row
raw input and three concrete unique-key lookup tables. -/
theorem claim_C1_witness :
    UniqueKeys c8lookup1 "admission_type_id"
    ∧ UniqueKeys c8lookup2 "discharge_disposition_id"
    ∧ UniqueKeys c8lookup3 "admission_source_id"
    ∧ c1out.rows.length = c1raw.rows.length :=
  ⟨by decide, by decide, by decide,
    claim_C1_row_count_preserved c1raw c8lookup1 c8lookup2 c8lookup3 c1out
      (by decide) (by decide) (by decide) rfl⟩

/-- C10: whenever at least one medication column is present in the raw
input (and no raw or lookup column masquerades as the derived count's
canonical name), every row of the cleaned output carries a non-missing
`num_active_diabetes_meds` between 0 and the number of medication columns
present. -/
theorem claim_C10_active_count (raw t1 t2 t3 out : DF)
    (halraw : Aligned raw) (halt1 : Aligned t1) (halt2 : Aligned t2) (halt3 : Aligned t3)
    (hsafe : ∀ c ∈ raw.cols, to_snake c ≠ numActiveName)
    (ht1 : numActiveName ∉ t1.cols) (ht2 : numActiveName ∉ t2.cols)
    (ht3 : numActiveName ∉ t3.cols)
    (hmed : medsPresent raw ≠ [])
    (hok : transform_encounters raw t1 t2 t3 = .ok out) :
    ∀ row ∈ out.rows, ∃ n : Int,
      getCell out.cols row numActiveName = .int n ∧ 0 ≤ n ∧
        n ≤ ((medsPresent raw).length : Int) := by
  unfold transform_encounters at hok
  rcases except_bind_ok.mp hok with ⟨d1, hd1, hok⟩
  rcases except_bind_ok.mp hok with ⟨d2, hd2, hok⟩
  rcases except_bind_ok.mp hok with ⟨d3, hd3, hok⟩
  rcases except_bind_ok.mp hok with ⟨u1, hu1, hok⟩
  rcases except_bind_ok.mp hok with ⟨u2, hu2, hok⟩
  rcases except_bind_ok.mp hok with ⟨u3, hu3, hok⟩
  rcases except_bind_ok.mp hok with ⟨d4, hd4, hok⟩
  rcases except_bind_ok.mp hok with ⟨d5, hd5, hok⟩
  rcases except_bind_ok.mp hok with ⟨d6, hd6, hok⟩
  rw [except_pure_ok] at hok
  have hcols1 : d1.cols = raw.cols := cols_numericStage hd1
  have hal1 : Aligned d1 := aligned_numericStage halraw hd1
  have hcolsB : (idStage d1).cols = raw.cols := by rw [cols_idStage, hcols1]
  have halB : Aligned (idStage d1) := aligned_idStage hal1
  rcases cols_diagStage hd2 with ⟨ext, hext, hmext⟩
  have hcols2 : d2.cols = raw.cols ++ ext := by rw [hext, hcolsB]
  have hal2 : Aligned d2 := aligned_diagStage halB hd2
  have hsafe2 : ∀ c ∈ d2.cols, SafeCol c := by
    intro c hc
    rw [hcols2] at hc
    rcases List.mem_append.mp hc with h0 | h0
    · refine ⟨hsafe c h0, ?_⟩
      intro he
      apply hsafe c h0
      rw [he]
      decide
    · have hall : ∀ x ∈ diagCleanNames, SafeCol x := by decide
      exact hall c (hmext c h0)
  have hmp : medsPresent d2 = medsPresent raw := by
    unfold medsPresent
    apply List.filter_congr
    intro c hcmed
    have hdisj : c ∉ diagCleanNames := by
      revert hcmed
      revert c
      decide
    have hiff : c ∈ d2.cols ↔ c ∈ raw.cols := by
      rw [hcols2]
      constructor
      · intro hm
        rcases List.mem_append.mp hm with h0 | h0
        · exact h0
        · exact absurd (hmext c h0) hdisj
      · intro hm
        exact List.mem_append_left ext hm
    by_cases hmem : c ∈ raw.cols
    · have h1 : (colIdx d2.cols c).isSome = true := colIdx_isSome_iff_mem.mpr (hiff.mpr hmem)
      have h2 : (colIdx raw.cols c).isSome = true := colIdx_isSome_iff_mem.mpr hmem
      rw [h1, h2]
    · have h1 : colIdx d2.cols c = none := colIdx_none_of_not_mem (fun hm => hmem (hiff.mp hm))
      have h2 : colIdx raw.cols c = none := colIdx_none_of_not_mem hmem
      rw [h1, h2]
  have halF : Aligned (medsFold d2) := aligned_meds_loop _ _ hal2
  rcases meds_loop_cols (medsPresent d2) d2 with ⟨ext2, hext2, hmext2⟩
  have hcolsF : (medsFold d2).cols = d2.cols ++ ext2 := hext2
  have hsafeF : ∀ c ∈ (medsFold d2).cols, SafeCol c := by
    intro c hc
    rw [hcolsF] at hc
    rcases List.mem_append.mp hc with h0 | h0
    · exact hsafe2 c h0
    · rcases hmext2 c h0 with ⟨c', hc', hor⟩
      have hc'med : c' ∈ med_cols := List.mem_of_mem_filter hc'
      have hall : ∀ x ∈ med_cols,
          SafeCol (x ++ "_clean") ∧ SafeCol (x ++ "_clean_active_flag") := by decide
      rcases hor with he | he
      · rw [he]
        exact (hall c' hc'med).1
      · rw [he]
        exact (hall c' hc'med).2
  have hnmF : numActiveName ∉ (medsFold d2).cols := fun hm => (hsafeF _ hm).2 rfl
  have hflags : ∀ c ∈ medsPresent d2,
      RowsP (medsFold d2) (c ++ "_clean_active_flag") FlagCell := by
    apply meds_loop_flags (medsPresent d2) ?_ d2 hal2 ?_
    · unfold medsPresent
      exact List.Nodup.filter _ (by decide)
    · intro c hcm
      exact colIdx_isSome_iff_mem.mp (List.mem_filter.mp hcm).2
  have hestab : Tracked (medsStep d2)
      (fun cell => ∃ n : Int, cell = .int n ∧ 0 ≤ n ∧
        n ≤ ((medsPresent raw).length : Int)) := by
    unfold medsStep
    rw [if_neg ?_]
    · apply tracked_setColRowFun_establish halF hnmF hsafeF
      intro r hrm
      have hFlagsAll : ∀ x ∈ (activeFlagCols d2).map
          (fun fc => getCell (medsFold d2).cols r fc), FlagCell x := by
        intro x hx
        rcases List.mem_map.mp hx with ⟨fc, hfc, hex⟩
        unfold activeFlagCols at hfc
        rcases List.mem_map.mp hfc with ⟨c, hcm, hfce⟩
        rw [← hex, ← hfce]
        exact hflags c hcm r hrm
      have hb := rowActiveCount_bound hFlagsAll
      refine ⟨_, rfl, hb.1, ?_⟩
      have hlen : (((activeFlagCols d2).map
          (fun fc => getCell (medsFold d2).cols r fc)).length : Int) =
          ((medsPresent raw).length : Int) := by
        rw [List.length_map]
        unfold activeFlagCols
        rw [List.length_map, hmp]
      rw [← hlen]
      exact hb.2
    · intro hemp
      apply hmed
      rw [← hmp]
      cases hmp0 : medsPresent d2 with
      | nil => rfl
      | cons a as =>
        unfold activeFlagCols at hemp
        rw [hmp0] at hemp
        cases hemp
  have htr3 := tracked_encodeStage hestab hd3
  have htrL := tracked_labStage htr3
  have hu1n : numActiveName ∉ u1.cols := prepLookup_not_mem hu1 ht1 (by decide)
  have hu2n : numActiveName ∉ u2.cols := prepLookup_not_mem hu2 ht2 (by decide)
  have hu3n : numActiveName ∉ u3.cols := prepLookup_not_mem hu3 ht3 (by decide)
  have halu1 : Aligned u1 := aligned_prepLookup halt1 hu1
  have halu2 : Aligned u2 := aligned_prepLookup halt2 hu2
  have halu3 : Aligned u3 := aligned_prepLookup halt3 hu3
  have htr4 := tracked_merge htrL halu1 hu1n hd4
  have htr5 := tracked_merge htr4 halu2 hu2n hd5
  have htr6 := tracked_merge htr5 halu3 hu3n hd6
  rw [← hok]
  exact tracked_snake_final htr6

/-- C10 witness: the active-count invariant instantiated at a concrete
two-row raw input; the second row, whose medication statuses are only
missing or `"No"`, receives count 0 rather than missing. -/
theorem claim_C10_witness :
    (∃ n : Int, getCell c10out.cols (c10out.rows.getD 0 []) numActiveName = .int n ∧
      0 ≤ n ∧ n ≤ ((medsPresent c10raw).length : Int))
    ∧ getCell c10out.cols (c10out.rows.getD 1 []) numActiveName = .int 0 :=
  ⟨claim_C10_active_count c10raw c8lookup1 c8lookup2 c8lookup3 c10out
      (by decide) (by decide) (by decide) (by decide) (by decide)
      (by decide) (by decide) (by decide) (by decide) rfl
      (c10out.rows.getD 0 []) (by decide),
    by decide⟩

/-- C2: the source only logs a warning when the block count differs from
three and then executes the three-name tuple unpacking, which raises the
generic `ValueError` rather than a named shape error — here evaluated at a
concrete two-block composite lookup file. -/
theorem claim_C2_lookup_unpack_crash :
    parse_lookup_blocks twoBlockLookupText =
      .error "ValueError: tuple unpacking of the parsed blocks failed"
    ∧ (blocksOf twoBlockLookupText).length = 2 := by
  constructor
  · rfl
  · rfl

/-- C3 counterexample: at the unrecognized non-missing value `"MAYBE"` the
readmission encoding raises (the leftover string defeats
`astype("Int64")`) instead of yielding missing flags. -/
theorem claim_C3_counterexample :
    encode_readmitted_flags (.str "MAYBE") =
      .error "TypeError: object cannot be converted to an IntegerDtype" := by
  rfl

/-- C3 amended: after trimming and uppercasing, `"NO" ↦ (0, 0)`,
`"<30" ↦ (1, 1)`, `">30" ↦ (1, 0)` and missing propagates to both flags;
but every other (unrecognized, non-missing) source value makes the engine
raise during integer conversion rather than degrade to missing. -/
theorem claim_C3_readmitted_amended :
    (∀ c : Cell, encode_readmitted_flags c = readmittedFlagsAmended c)
    ∧ encode_readmitted_flags (.str "NO") = .ok (.int 0, .int 0)
    ∧ encode_readmitted_flags (.str "<30") = .ok (.int 1, .int 1)
    ∧ encode_readmitted_flags (.str ">30") = .ok (.int 1, .int 0)
    ∧ encode_readmitted_flags .na = .ok (.na, .na) := by
  refine ⟨?_, rfl, rfl, rfl, rfl⟩
  intro c
  cases c with
  | na => rfl
  | str s =>
    show (do
      let a ← readmitted_any_flag (.str (pyUpper (pyStrip s)))
      let t ← readmitted_30d_flag (.str (pyUpper (pyStrip s)))
      pure (a, t)) = readmittedFlagsAmended (.str s)
    unfold readmitted_any_flag readmitted_30d_flag readmittedFlagsAmended
    simp only [pyStr]
    split_ifs <;> rfl
  | int n =>
    show (do
      let a ← readmitted_any_flag (.str (pyUpper (pyStrip (toString n))))
      let t ← readmitted_30d_flag (.str (pyUpper (pyStrip (toString n))))
      pure (a, t)) = readmittedFlagsAmended (.int n)
    unfold readmitted_any_flag readmitted_30d_flag readmittedFlagsAmended
    simp only [pyStr]
    split_ifs <;> rfl

/-- C4 counterexample: on the two-row input `["NO", missing]` the overall
readmission rate of `generate_summaries` is `1/2`, not the `0` that a mean
over only the present statuses would give — the missing row enters both the
numerator and the denominator. -/
theorem claim_C4_counterexample :
    readmission_rate_any [Cell.str "NO", Cell.na] ≠
      rateAnySpecPresent [Cell.str "NO", Cell.na] := by
  have h1 : readmission_rate_any [Cell.str "NO", Cell.na] = some ((1 : ℚ) / 2) := by
    have hmap : [Cell.str "NO", Cell.na].map readmitted_ne_NO = [false, true] := rfl
    unfold readmission_rate_any boolMean
    rw [hmap]
    norm_num
  have h2 : rateAnySpecPresent [Cell.str "NO", Cell.na] = some ((0 : ℚ) / 1) := by
    have hfil : [Cell.str "NO", Cell.na].filter (fun c => c ≠ Cell.na) = [Cell.str "NO"] := rfl
    have hcnt : [Cell.str "NO"].countP
        (fun c => decide (pyStrip (pyUpper (pyStr c)) ≠ "NO")) = 0 := rfl
    unfold rateAnySpecPresent
    rw [hfil]
    norm_num [hcnt]
    decide
  rw [h1, h2]
  intro h
  rw [Option.some.injEq] at h
  norm_num at h

/-- C4 amended: every summary rate is a mean over all rows of the group, a
missing status counting as a readmission in the any-rate (pandas evaluates
`NaN != "NO"` as `True`) and as not-within-30-days in the 30-day rate; on
the all-present 4-row example the rates are 0.5 and 0.25, and the grouped
tables apply the same rate to each group's rows. -/
theorem claim_C4_rates_amended :
    (∀ sts : List Cell, readmission_rate_any sts = rateAnyAmendedSpec sts)
    ∧ (∀ sts : List Cell, readmission_rate_30d sts = rate30dAmendedSpec sts)
    ∧ readmission_rate_any fourRowStatuses = some (1 / 2)
    ∧ readmission_rate_30d fourRowStatuses = some (1 / 4)
    ∧ ∀ ages statuses : List Cell, ∀ e ∈ readmission_by_age ages statuses,
        e.2.2 = readmission_rate_any
          (((ages.zip statuses).filter (fun p => p.1 = e.1)).map Prod.snd) := by
  refine ⟨?_, ?_, ?_, ?_, ?_⟩
  · intro sts
    unfold readmission_rate_any boolMean rateAnyAmendedSpec
    by_cases h : sts = []
    · subst h; simp
    · rw [if_neg (by simpa using h), if_neg h]
      have hc : (sts.map readmitted_ne_NO).countP id = sts.countP anyReadmittedAllRows := by
        rw [List.countP_map]
        apply List.countP_congr
        intro c _
        cases c <;> rfl
      rw [hc, List.length_map]
  · intro sts
    unfold readmission_rate_30d boolMean rate30dAmendedSpec
    by_cases h : sts = []
    · subst h; simp
    · rw [if_neg (by simpa using h), if_neg h]
      have hc : (sts.map readmitted_eq_lt30).countP id = sts.countP thirtyReadmittedAllRows := by
        rw [List.countP_map]
        apply List.countP_congr
        intro c _
        cases c <;> rfl
      rw [hc, List.length_map]
  · have hmap : fourRowStatuses.map readmitted_ne_NO = [false, false, true, true] := rfl
    unfold readmission_rate_any boolMean
    rw [hmap]
    norm_num
  · have hmap : fourRowStatuses.map readmitted_eq_lt30 = [false, false, true, false] := rfl
    unfold readmission_rate_30d boolMean
    rw [hmap]
    norm_num
  · intro ages statuses e he
    unfold readmission_by_age at he
    rcases List.mem_map.mp he with ⟨k, _, hk⟩
    rw [← hk]

/-- C5: each present medication column is standardized by the spec's exact
table (anything outside it, `"?"`, `"NA"`, `"None"` included, to missing),
the active flag is 1 on steady/increased/decreased, 0 on no and missing on
missing, and the per-row count sums the flags with missing as 0. -/
theorem claim_C5_medication_rules :
    (∀ c : Cell, standardize_med_status c = medStatusSpec c)
    ∧ (∀ c : Cell, med_active_flag c = activeFlagSpec c)
    ∧ (∀ flags : List Cell,
        rowActiveCount flags = (flags.map (fun f => (flagValue f).getD 0)).sum)
    ∧ standardize_med_status (.str "Up") = .str "increased"
    ∧ med_active_flag (.str "increased") = .int 1
    ∧ standardize_med_status (.str "No") = .str "no"
    ∧ med_active_flag (.str "no") = .int 0
    ∧ standardize_med_status (.str "?") = .na
    ∧ med_active_flag .na = .na := by
  refine ⟨?_, ?_, ?_, rfl, rfl, rfl, rfl, by decide, rfl⟩
  · intro c
    cases c with
    | na => rfl
    | str s =>
      simp only [standardize_med_status, medStatusSpec]
      split_ifs <;> rfl
    | int n =>
      simp only [standardize_med_status, medStatusSpec]
      split_ifs <;> rfl
  · intro c
    cases c with
    | na => rfl
    | str s => simp only [med_active_flag, activeFlagSpec]
    | int n => rfl
  · intro flags
    unfold rowActiveCount
    congr 1
    apply List.map_congr_left
    intro a _
    cases a <;> rfl

/-- C6: diagnosis grouping sends missing to missing, every code whose text
begins with `"250"` to `"diabetes"`, a code with no leading numeric token
to `"other"`, and otherwise buckets the leading numeric value by the
inclusive ranges; the spec's five sample codes land as stated. -/
theorem claim_C6_diag_grouping :
    diag_group .na = .na
    ∧ diag_group (.str "250.83") = .str "diabetes"
    ∧ diag_group (.str "486") = .str "respiratory"
    ∧ diag_group (.str "410") = .str "circulatory"
    ∧ diag_group (.str "530") = .str "digestive"
    ∧ diag_group (.str "780") = .str "other"
    ∧ (∀ s : String, s.data.take 3 = ['2', '5', '0'] → diag_group (.str s) = .str "diabetes")
    ∧ (∀ s : String, s.data.take 3 ≠ ['2', '5', '0'] → leadingNumber s = none →
        diag_group (.str s) = .str "other")
    ∧ ∀ (s : String) (q : ℚ), s.data.take 3 ≠ ['2', '5', '0'] → leadingNumber s = some q →
        diag_group (.str s) =
          .str (if 390 ≤ q ∧ q ≤ 459 then "circulatory"
            else if 460 ≤ q ∧ q ≤ 519 then "respiratory"
            else if 520 ≤ q ∧ q ≤ 579 then "digestive"
            else "other") := by
  refine ⟨rfl, by decide, by decide, by decide, by decide, by decide, ?_, ?_, ?_⟩
  · intro s h
    unfold diag_group
    simp only [pyStr]
    rw [if_pos h]
  · intro s h hln
    unfold diag_group
    simp only [pyStr]
    rw [if_neg h, hln]
  · intro s q h hln
    unfold diag_group
    simp only [pyStr]
    rw [if_neg h]
    simp only [hln]
    split_ifs <;> rfl

/-- C8 counterexample: re-running the Transformation Engine on its own
output changes the already-derived `num_active_diabetes_meds` of `c8raw`'s
row — name canonicalization renamed `glyburide-metformin` to
`glyburide_metformin`, so the second run no longer recognizes it as a
medication column and drops its flag from the count. -/
theorem claim_C8_counterexample :
    getCell c8run2.cols (c8run2.rows.getD 0 []) numActiveName ≠
      getCell c8run1.cols (c8run1.rows.getD 0 []) numActiveName := by
  decide

/-- C8 amended: on a row whose only active medication is hyphen-named, the
first run derives count 1 and the second run rewrites it to 0, so the
engine is not idempotent on derived fields; the other derived fields of
this row (diagnosis group, gender, race, readmission flags, the hyphen-free
`metformin_clean`, and even the stale `glyburide_metformin_clean`) are
recomputed or kept with unchanged values, and the three lookup description
columns are renamed by the second run's merge suffixing rather than kept. -/
theorem claim_C8_idempotence_amended :
    getCell c8run1.cols (c8run1.rows.getD 0 []) numActiveName = .int 1
    ∧ getCell c8run2.cols (c8run2.rows.getD 0 []) numActiveName = .int 0
    ∧ getCell c8run2.cols (c8run2.rows.getD 0 []) "gender_clean" =
        getCell c8run1.cols (c8run1.rows.getD 0 []) "gender_clean"
    ∧ getCell c8run2.cols (c8run2.rows.getD 0 []) "race_clean" =
        getCell c8run1.cols (c8run1.rows.getD 0 []) "race_clean"
    ∧ getCell c8run2.cols (c8run2.rows.getD 0 []) "diag_1_group" =
        getCell c8run1.cols (c8run1.rows.getD 0 []) "diag_1_group"
    ∧ getCell c8run2.cols (c8run2.rows.getD 0 []) "readmitted_any_flag" =
        getCell c8run1.cols (c8run1.rows.getD 0 []) "readmitted_any_flag"
    ∧ getCell c8run2.cols (c8run2.rows.getD 0 []) "readmitted_30d_flag" =
        getCell c8run1.cols (c8run1.rows.getD 0 []) "readmitted_30d_flag"
    ∧ getCell c8run2.cols (c8run2.rows.getD 0 []) "metformin_clean" =
        getCell c8run1.cols (c8run1.rows.getD 0 []) "metformin_clean"
    ∧ getCell c8run2.cols (c8run2.rows.getD 0 []) "glyburide_metformin_clean" =
        getCell c8run1.cols (c8run1.rows.getD 0 []) "glyburide_metformin_clean"
    ∧ c8run1.cols.contains "admission_type_desc" = true
    ∧ c8run2.cols.contains "admission_type_desc" = false
    ∧ c8run2.cols.contains "admission_type_desc_x" = true
    ∧ c8run2.cols.contains "admission_type_desc_y" = true := by
  decide
